import Mathlib

/-!
A shallow embedding of the argument-matching engine of the tabb
command-line framework (src/tabb/parser.py and src/tabb/nargs.py),
with proofs about the specification's claims.

Modelling conventions, mirroring the Python source:

* The persistent `Stack` class is modelled by `List` with the head as the
  top of the stack (`push` = cons, `pop` = uncons); `Stack.from_sequence`
  preserves order, so a stack built from a list has the list's head on top.
* The mutable per-thread `State` is passed functionally: every method that
  mutates `state` (and possibly appends to the shared `threads` worklist,
  or raises `MatchError` / `UnexpetedParameter`) becomes a function
  returning the new worklist and state plus an optional `PErr`.
* The worklist `threads` is a Python list used LIFO (`append` then `pop`
  from the end); it is modelled as a `List State` whose head is the next
  element to be popped, so `append` becomes cons.
* Unbounded loops (the frame-drain / `while True` loop of `_parse_thread`
  and the `while threads` loop of `_parse_args`) take explicit fuel and
  return `none` when it runs out; theorems are stated at (or quantified
  over) sufficient fuel.
* Python's Unicode-aware `str.isalpha` and `str.isidentifier` are
  modelled by their ASCII restrictions (no claim exercises non-ASCII
  tokens).
* A descriptor (`ParserParameter`) is reduced to what the engine consumes:
  an identity (`id`, modelling Python object identity used as dict key),
  its `nargs`, its `matches` probe, and the `get_metavar` display string
  (used only by `_get_possible_matches`).
-/

/-! ## Arity algebra (src/tabb/nargs.py) -/

/-- `NArgs`: either `IntNArgs value` or
`VariadicNArgs value min_values max_values greedy` (`max_values = none`
means unbounded). -/
inductive NArgs where
  | int (value : Nat)
  | variadic (value : NArgs) (min_values : Nat) (max_values : Option Nat) (greedy : Bool)
deriving DecidableEq, Repr

/-- `NArgs.as_optional`: the base class wraps the arity in
`VariadicNArgs(self, min_values=0, max_values=1, greedy=True)`;
`VariadicNArgs.as_optional` overrides this to return `self` unchanged when
`min_values == 0`. -/
def NArgs.as_optional : NArgs → NArgs
  | .variadic v 0 mx g => .variadic v 0 mx g
  | na => .variadic na 0 (some 1) true

/-- `decrement()`: `IntNArgs` returns `None` when `value <= 1`, else
`IntNArgs(value - 1)`; `VariadicNArgs` returns `None` when
`max_values == 1`, else decrements `min_values` (floored at 0, Python's
`self.min_values and self.min_values - 1`) and `max_values` (`None` stays
`None`; Python's `self.max_values and self.max_values - 1` keeps 0 at 0,
matching truncated subtraction). -/
def NArgs.decrement : NArgs → Option NArgs
  | .int v => if v ≤ 1 then none else some (.int (v - 1))
  | .variadic v mn mx g =>
    if mx = some 1 then none
    else some (.variadic v (mn - 1) (mx.map (fun m => m - 1)) g)

/-! ## Occurrences and descriptors (src/tabb/parameter/types.py, parser.py) -/

/-- `ParameterArg`: the tagged union `PositionalArg value` /
`OptionArg flag value`. -/
inductive ParameterArg where
  | positionalArg (value : String)
  | optionArg (flag : String) (value : Option String)
deriving DecidableEq, Repr

/-- The slice of a `ParserParameter` consumed by the engine: `id` models
Python object identity (descriptors are identity-compared dict keys),
`nargs` the declared arity, `matches_arg` the admissibility probe
`param.matches(ctx, arg)` (renamed because `matches` is a Lean keyword;
the context argument is irrelevant to the engine and dropped), and
`metavar` the `get_metavar(ctx)` display string
consumed only by `_get_possible_matches`. -/
structure Param where
  id : Nat
  nargs : NArgs
  matches_arg : ParameterArg → Bool
  metavar : String

/-! ## Parse state (src/tabb/parser.py, StackFrame and State) -/

/-- `StackFrame`: an open consumption commitment. -/
structure StackFrame where
  param : Param
  nargs : NArgs
  flag : Option String := none
  value : Option String := none
  has_value : Bool := false

/-- `State`: per-thread parse state. All five stacks have their top at the
list head. `captured_args` is the append-log of `(param, arg)` pairs,
most recent capture first (as when iterating the Python stack). -/
structure State where
  args : List String
  positional : List Param
  parse_options : Bool := true
  unused_args : List String := []
  captured_args : List (Param × ParameterArg) := []
  stack : List StackFrame := []

/-- `State.capture_arg`: push `(param, arg)` onto the captured-args stack. -/
def State.capture_arg (s : State) (p : Param) (a : ParameterArg) : State :=
  { s with captured_args := (p, a) :: s.captured_args }

/-- The loop body of `State.reset_unused_args`: pop each unused arg and
push it onto `args`. -/
def resetUnusedGo : List String → List String → List String
  | [], args => args
  | u :: us, args => resetUnusedGo us (u :: args)

/-- `State.reset_unused_args`: move every deferred token back onto the
front of the remaining-args stack. -/
def State.reset_unused_args (s : State) : State :=
  { s with args := resetUnusedGo s.unused_args s.args, unused_args := [] }

/-- `State.loss`: `(len(self.positional), len(self.args))`. -/
def State.loss (s : State) : Nat × Nat :=
  (s.positional.length, s.args.length)

/-- Python tuple comparison `state.loss() < best_match.loss()`:
lexicographic strict order on pairs of naturals. -/
def lossLt (a b : Nat × Nat) : Bool :=
  Nat.blt a.1 b.1 || (Nat.beq a.1 b.1 && Nat.blt a.2 b.2)

/-- Helper of `State.get_captured_args`: Python's
`args[param].append(arg)` / `args[param] = [arg]` on an insertion-ordered
dict, modelled as an association list keyed by descriptor identity with
new keys appended at the end. -/
def insertAppend (acc : List (Nat × List ParameterArg)) (k : Nat) (v : ParameterArg) :
    List (Nat × List ParameterArg) :=
  match acc with
  | [] => [(k, [v])]
  | (k1, vs) :: rest =>
    if k1 = k then (k1, vs ++ [v]) :: rest else (k1, vs) :: insertAppend rest k v

/-- `State.get_captured_args`: iterate the captured-args stack top-down
(most recent first), group occurrences per descriptor appending in
iteration order, then reverse each per-descriptor list (Python's final
`args[param][::-1]`). -/
def State.get_captured_args (s : State) : List (Nat × List ParameterArg) :=
  (s.captured_args.foldl (fun acc pa => insertAppend acc pa.1.id pa.2) []).map
    (fun kv => (kv.1, kv.2.reverse))

/-! ## Token classification (src/tabb/parser.py, src/tabb/utils.py) -/

/-- `to_snake`: translate every dash and space to an underscore. -/
def to_snake (s : String) : String :=
  String.mk (s.data.map (fun c => if c = '-' ∨ c = ' ' then '_' else c))

/-- A continuation character of an identifier (ASCII model of Python's
`str.isidentifier`). -/
def isIdentChar (c : Char) : Bool :=
  c.isAlpha || c.isDigit || c = '_'

/-- ASCII model of `str.isidentifier`: nonempty, first character a letter
or underscore, the rest letters, digits or underscores. -/
def isIdentifier (s : String) : Bool :=
  match s.data with
  | [] => false
  | c :: cs => (c.isAlpha || c = '_') && cs.all isIdentChar

/-- `arg.startswith(p)` on character lists (the core `String.startsWith`
is compiled by well-founded recursion and does not reduce in the
kernel). -/
def charsStartWith : List Char → List Char → Bool
  | [], _ => true
  | _ :: _, [] => false
  | p :: ps, c :: cs => p == c && charsStartWith ps cs

/-- `is_long_flag(arg)`: starts with `--` and the rest, snake-cased, is an
identifier (the `arg[2:]` slice is taken on the character list). -/
def is_long_flag (a : String) : Bool :=
  charsStartWith ['-', '-'] a.data && isIdentifier (to_snake (String.mk (a.data.drop 2)))

/-- `is_short_flag(arg)`: a dash followed by exactly one alphabetic
character. -/
def is_short_flag (a : String) : Bool :=
  charsStartWith ['-'] a.data && a.data.length == 2 && (a.data.drop 1).all Char.isAlpha

/-- `is_short_arg(arg)`: a dash followed by one or more alphabetic
characters. -/
def is_short_arg (a : String) : Bool :=
  charsStartWith ['-'] a.data && decide (1 < a.data.length) && (a.data.drop 1).all Char.isAlpha

/-- `is_long_arg(arg)`: alias of `is_long_flag`. -/
def is_long_arg (a : String) : Bool := is_long_flag a

/-- `is_positional_arg(arg)`: neither short- nor long-flag shaped. -/
def is_positional_arg (a : String) : Bool :=
  !(is_short_arg a || is_long_arg a)

/-- Helper of `partitionEq`: split a character list at the first `=`. -/
def partEqGo : List Char → List Char × Option (List Char)
  | [] => ([], none)
  | c :: cs =>
    if c = '=' then ([], some cs)
    else
      let r := partEqGo cs
      (c :: r.1, r.2)

/-- Python's `flag, has_value, value = arg.partition(eq)` followed by
`if not has_value: value = None`: the part before the first `=`, and the
part after it when one exists. -/
def partitionEq (a : String) : String × Option String :=
  let r := partEqGo a.data
  (String.mk r.1, r.2.map String.mk)

/-! ## The matching engine (src/tabb/parser.py, class Parser) -/

/-- The engine after construction: the short-flag table, the long-flag
table and the ordered positional list (`add_param` registration and its
duplicate-flag errors happen before parsing and are not modelled). -/
structure Parser where
  short_flags : List (String × Param)
  long_flags : List (String × Param)
  positional : List Param

/-- Dictionary lookup in a flag table. -/
def lookupFlag : List (String × Param) → String → Option Param
  | [], _ => none
  | (k, p) :: rest, fl => if k = fl then some p else lookupFlag rest fl

/-- The two exceptions crossing `_parse_thread`'s boundary:
`MatchError` and `UnexpetedParameter(arg)`. -/
inductive PErr where
  | matchError
  | unexpected (arg : String)
deriving DecidableEq, Repr

/-- Result of running one thread: the worklist (including forks pushed
before any failure), the thread's final state (the mutated state at the
point of an error, used for `loss()`), and the error if one was raised. -/
structure StepOut where
  threads : List State
  state : State
  err : Option PErr

/-- `Parser._push_frame`: no-op when `nargs is None`; when `nargs` is
variadic with `min_values == 0` the thread forks — for a greedy arity a
copy of the state WITHOUT the new frame is appended to the worklist and
the current thread continues with the frame (keep-consuming explored
first); for a lazy arity the copy WITH the frame is appended and the
current thread continues without it (stop-now explored first). Returns
the new worklist and the state the current thread continues with. -/
def push_frame (threads : List State) (s : State) (param : Param) (nargs : Option NArgs)
    (flag : Option String) (value : Option String) (has_value : Bool) :
    List State × State :=
  match nargs with
  | none => (threads, s)
  | some na =>
    let withFrame : State :=
      { s with stack := ⟨param, na, flag, value, has_value⟩ :: s.stack }
    match na with
    | .variadic _ 0 _ true => (s :: threads, withFrame)
    | .variadic _ 0 _ false => (withFrame :: threads, s)
    | _ => (threads, withFrame)

/-- Tail of `Parser._get_int_frame_arg` after the inline-value cases:
`MatchError` when the frame already bound a value, otherwise pop the next
raw token (failing when none remain) and wrap it for the frame's flag. -/
def get_int_frame_arg_pop (s : State) (flag : Option String) (has_value : Bool) :
    Option (ParameterArg × State) :=
  if has_value then none
  else
    match s.args with
    | [] => none
    | a :: rest =>
      match flag with
      | some fl => some (.optionArg fl (some a), { s with args := rest })
      | none => some (.positionalArg a, { s with args := rest })

/-- `Parser._get_int_frame_arg`: for an option frame, a zero-arity frame
without inline value yields `OptionArg(flag, None)` and a one-arity frame
with an inline value yields it directly; otherwise a raw token is popped.
`none` models `MatchError`, in which case the state is unchanged. -/
def get_int_frame_arg (s : State) (flag : Option String) (value : Option String)
    (has_value : Bool) (n : Nat) : Option (ParameterArg × State) :=
  match flag with
  | some fl =>
    if n = 0 ∧ value = none then some (.optionArg fl none, s)
    else if n = 1 ∧ value ≠ none then some (.optionArg fl value, s)
    else get_int_frame_arg_pop s (some fl) has_value
  | none => get_int_frame_arg_pop s none has_value

/-- `Parser._parse_int_frame`: acquire the next value, probe it with the
descriptor's `matches` (raising `MatchError` on rejection, with the
popped token already consumed), log the capture and reopen the frame at
the decremented arity. -/
def parse_int_frame (threads : List State) (s : State) (param : Param)
    (flag : Option String) (value : Option String) (has_value : Bool) (n : Nat) :
    List State × State × Option PErr :=
  match get_int_frame_arg s flag value has_value n with
  | none => (threads, s, some .matchError)
  | some (arg, s1) =>
    if param.matches_arg arg then
      let s2 := s1.capture_arg param arg
      let r := push_frame threads s2 param (NArgs.int n).decrement flag none false
      (r.1, r.2, none)
    else (threads, s1, some .matchError)

/-- `Parser._parse_frame` / `Parser._parse_variadic_frame`, recursing on
the structure of the frame's arity: a variadic frame runs a child frame
at its inner arity (with the same flag, no inline value) and, on success,
reopens itself at the decremented arity via `push_frame` (which forks
when the remaining minimum is zero). An error in the child aborts the
frame. -/
def parse_frame_go (threads : List State) (s : State) (param : Param)
    (flag : Option String) (value : Option String) (has_value : Bool) :
    NArgs → List State × State × Option PErr
  | .int n => parse_int_frame threads s param flag value has_value n
  | .variadic v mn mx g =>
    match parse_frame_go threads s param flag none false v with
    | (ts1, s1, some e) => (ts1, s1, some e)
    | (ts1, s1, none) =>
      let r := push_frame ts1 s1 param (NArgs.variadic v mn mx g).decrement flag none false
      (r.1, r.2, none)

/-- `Parser._parse_frame` on a popped `StackFrame`. -/
def parse_frame (threads : List State) (s : State) (f : StackFrame) :
    List State × State × Option PErr :=
  parse_frame_go threads s f.param f.flag f.value f.has_value f.nargs

/-- The loop body of `Parser._parse_short`: resolve the cluster's
characters right-to-left (`enumerate(reversed(flag[1:]))`); only the last
character (index 0) may bind the inline value, every earlier character
gets `has_value = True`; an unknown short flag raises
`UnexpetedParameter(arg)` (frames already pushed for later characters
remain). -/
def parse_short_go (P : Parser) (arg : String) (value : Option String) :
    List State → State → Nat → List Char → List State × State × Option PErr
  | threads, s, _, [] => (threads, s, none)
  | threads, s, idx, c :: cs =>
    let short := String.mk ['-', c]
    match lookupFlag P.short_flags short with
    | none => (threads, s, some (.unexpected arg))
    | some param =>
      let r := push_frame threads s param (some param.nargs) (some short)
        (if idx = 0 then value else none) (!(idx == 0) || value.isSome)
      parse_short_go P arg value r.1 r.2 (idx + 1) cs

/-- `Parser._parse_short`. -/
def parse_short (P : Parser) (threads : List State) (s : State) (arg flag : String)
    (value : Option String) : List State × State × Option PErr :=
  parse_short_go P arg value threads s 0 (flag.data.drop 1).reverse

/-- `Parser._parse_long`: look the flag up in the long table (unknown
raises `UnexpetedParameter(arg)`) and open a frame at the descriptor's
declared arity, seeded with any inline value. -/
def parse_long (P : Parser) (threads : List State) (s : State) (arg flag : String)
    (value : Option String) : List State × State × Option PErr :=
  match lookupFlag P.long_flags flag with
  | none => (threads, s, some (.unexpected arg))
  | some param =>
    let r := push_frame threads s param (some param.nargs) (some flag) value value.isSome
    (r.1, r.2, none)

/-- `Parser._parse_option`: with no tokens left, flag parsing ends; a bare
`--` is consumed and ends flag parsing; otherwise the token is split at
its first `=` and dispatched as a short cluster, a long flag, a deferred
token (interspersed mode), or pushed back with flag parsing ended. -/
def parse_option (P : Parser) (allow_interspersed_args : Bool) (threads : List State)
    (s : State) : List State × State × Option PErr :=
  match s.args with
  | [] => (threads, { s with parse_options := false }, none)
  | arg :: rest =>
    if arg = "--" then (threads, { s with args := rest, parse_options := false }, none)
    else
      let pv := partitionEq arg
      if is_short_arg pv.1 then parse_short P threads { s with args := rest } arg pv.1 pv.2
      else if is_long_arg pv.1 then parse_long P threads { s with args := rest } arg pv.1 pv.2
      else if allow_interspersed_args then
        (threads, { s with args := rest, unused_args := arg :: s.unused_args }, none)
      else
        (threads, { s with parse_options := false }, none)

/-- `Parser._parse_thread`: the per-thread step loop. Python drains the
frame stack in an inner `while state.stack` loop before re-checking
`parse_options` / `positional`; here the outer loop is flattened so that
every iteration re-dispatches on the same priority order (stack first),
which performs the same operations in the same order. Each iteration
consumes one unit of fuel; `none` means the fuel ran out. -/
def parse_thread (P : Parser) (allow_interspersed_args : Bool) :
    Nat → List State → State → Option StepOut
  | 0, _, _ => none
  | fuel + 1, threads, s =>
    match s.stack with
    | f :: stackRest =>
      match parse_frame threads { s with stack := stackRest } f with
      | (ts1, s1, some e) => some ⟨ts1, s1, some e⟩
      | (ts1, s1, none) => parse_thread P allow_interspersed_args fuel ts1 s1
    | [] =>
      if s.parse_options then
        match parse_option P allow_interspersed_args threads s with
        | (ts1, s1, some e) => some ⟨ts1, s1, some e⟩
        | (ts1, s1, none) => parse_thread P allow_interspersed_args fuel ts1 s1
      else
        match s.positional with
        | [] => some ⟨threads, s, none⟩
        | p :: ps =>
          let s1 := s.reset_unused_args
          let r := push_frame threads { s1 with positional := ps } p (some p.nargs)
            none none false
          parse_thread P allow_interspersed_args fuel r.1 r.2

/-- The three ways `Parser._parse_args` returns a state: a thread
succeeded, a thread surfaced `UnexpetedParameter` (offending token pushed
back), or the worklist emptied and the best abandoned state is returned. -/
inductive ParseResult where
  | success (s : State)
  | unexpected (s : State)
  | exhausted (best : State)

/-- The state carried by a `ParseResult` (all three return paths of
`Parser._parse_args` return a bare `State`). -/
def ParseResult.state : ParseResult → State
  | .success s => s
  | .unexpected s => s
  | .exhausted b => b

/-- The `while threads` loop of `Parser._parse_args`. In the source,
`best_match` initially IS the single root thread object, which
`_parse_thread` mutates in place; when that first thread raises
`MatchError` the comparison `state.loss() < best_match.loss()` compares
the object with itself, but `best_match` still denotes the mutated state
— i.e. the first abandoned thread unconditionally becomes the best
match. The `isFirst` flag makes that aliasing explicit; all later
threads are fresh copies and replace the best only when their loss is
strictly smaller. -/
def parse_args_loop (P : Parser) (i : Bool) (tf : Nat) :
    Nat → List State → State → Bool → Option ParseResult
  | 0, _, _, _ => none
  | _ + 1, [], best, _ => some (.exhausted best)
  | lf + 1, s :: rest, best, isFirst =>
    match parse_thread P i tf rest s with
    | none => none
    | some ⟨_, s1, none⟩ => some (.success s1)
    | some ⟨ts1, s1, some .matchError⟩ =>
      let best1 := if isFirst then s1
        else if lossLt s1.loss best.loss then s1 else best
      parse_args_loop P i tf lf ts1 best1 false
    | some ⟨_, s1, some (.unexpected a)⟩ =>
      some (.unexpected { s1 with args := a :: s1.args })

/-- `Parser._parse_args`: build the root state from the raw tokens and
the positional list and run the worklist loop (worklist = the singleton
root, which is also the initial best match). -/
def run_parse (P : Parser) (i : Bool) (tf lf : Nat) (argv : List String) :
    Option ParseResult :=
  let root : State := ⟨argv, P.positional, true, [], [], []⟩
  parse_args_loop P i tf lf [root] root true

/-! ## Suggestions (difflib collaborator) and the public entry point -/

/-- Positions of a character in the second sequence (difflib's `b2j`),
in increasing order. -/
def bIndices (c : Char) (b : List Char) : List Nat :=
  (b.enum.filter (fun p => p.2 == c)).map (fun p => p.1)

/-- Lookup in the `j2len` row of difflib's `find_longest_match` dynamic
program (missing keys give 0). -/
def lookupD (l : List (Nat × Nat)) (k : Nat) : Nat :=
  match l with
  | [] => 0
  | (k1, v) :: rest => if k1 = k then v else lookupD rest k

/-- One row of difflib's `find_longest_match` dynamic program: for
position `i` of the first sequence, extend every match ending at a
position of the same character in the second sequence, keeping the best
block on strict improvement (so the earliest maximal block wins, as in
the source). -/
def flmStep (b : List Char) (acc : (Nat × Nat × Nat) × List (Nat × Nat)) (ic : Nat × Char) :
    (Nat × Nat × Nat) × List (Nat × Nat) :=
  let i := ic.1
  let js := bIndices ic.2 b
  let newRow := js.map (fun j => (j, (if j = 0 then 0 else lookupD acc.2 (j - 1)) + 1))
  let best := newRow.foldl
    (fun bst jk =>
      if jk.2 > bst.2.2 then (i + 1 - jk.2, jk.1 + 1 - jk.2, jk.2) else bst)
    acc.1
  (best, newRow)

/-- difflib's `SequenceMatcher.find_longest_match` restricted to empty
junk sets (the engine matches short command-line flags, far below the
200-character autojunk threshold, and passes no junk predicate, so the
junk-extension phases are no-ops): returns `(besti, bestj, bestsize)`. -/
def find_longest_match (a b : List Char) : Nat × Nat × Nat :=
  (a.enum.foldl (flmStep b) ((0, 0, 0), [])).1

/-- Total size of difflib's matching blocks: the recursive
divide-and-conquer of `get_matching_blocks`, summed. The fuel bounds the
recursion depth (total length strictly decreases; `len a + len b + 1`
always suffices). -/
def matching_total : Nat → List Char → List Char → Nat
  | 0, _, _ => 0
  | fuel + 1, a, b =>
    let r := find_longest_match a b
    if r.2.2 = 0 then 0
    else
      r.2.2 + matching_total fuel (a.take r.1) (b.take r.2.1) +
        matching_total fuel (a.drop (r.1 + r.2.2)) (b.drop (r.2.1 + r.2.2))

/-- The ratio `2 * M / (len(a) + len(b))` of difflib's `ratio()`, kept as
an exact pair (numerator, denominator). Python computes this in floating
point; the model is exact rational arithmetic. -/
def ratioVal (x word : String) : Nat × Nat :=
  (2 * matching_total (x.length + word.length + 1) x.data word.data,
    x.length + word.length)

/-- difflib's `_calculate_ratio` returns 1.0 when both sequences are
empty; normalise the exact ratio accordingly. -/
def normRatio (p : Nat × Nat) : Nat × Nat :=
  if p.2 = 0 then (1, 1) else p

/-- Exact comparison `ratio >= cutoff` for the fixed cutoff 0.6 of
`get_close_matches` (the chained `real_quick_ratio` / `quick_ratio`
pre-filters are upper bounds of `ratio` and do not change the outcome). -/
def cutoffOK (p : Nat × Nat) : Bool :=
  let q := normRatio p
  decide (10 * q.1 ≥ 6 * q.2)

/-- Exact rational strict comparison of two ratios. -/
def ratioGTb (p q : Nat × Nat) : Bool :=
  let p1 := normRatio p
  let q1 := normRatio q
  decide (p1.1 * q1.2 > q1.1 * p1.2)

/-- Exact rational equality of two ratios. -/
def ratioEQb (p q : Nat × Nat) : Bool :=
  let p1 := normRatio p
  let q1 := normRatio q
  decide (p1.1 * q1.2 = q1.1 * p1.2)

/-- The `(score, x)` tuple order of `heapq._nlargest` over
`get_close_matches` results: by ratio, ties broken by the candidate
string (Python tuple comparison), descending. -/
def scoreKeyGT (a b : (Nat × Nat) × String) : Bool :=
  ratioGTb a.1 b.1 || (ratioEQb a.1 b.1 && decide (b.2 < a.2))

/-- Insert into a list sorted descending by `scoreKeyGT`. -/
def insertDesc (x : (Nat × Nat) × String) : List ((Nat × Nat) × String) →
    List ((Nat × Nat) × String)
  | [] => [x]
  | y :: ys => if scoreKeyGT x y then x :: y :: ys else y :: insertDesc x ys

/-- `difflib.get_close_matches(word, possibilities)` with the default
`n=3, cutoff=0.6`: candidates whose ratio against `word` passes the
cutoff, the best three first (sorted by ratio then string, descending).
Modelled from the Python standard library, an external collaborator of
the engine. -/
def get_close_matches (word : String) (possibilities : List String) : List String :=
  let scored := possibilities.filterMap (fun x =>
    let r := ratioVal x word
    if cutoffOK r then some (r, x) else none)
  ((scored.foldl (fun acc p => insertDesc p acc) []).take 3).map (fun p => p.2)

/-- `Parser._get_possible_matches`: split the offending token (the head
of the remaining args) at its first `=`; an exactly-two-character short
flag yields no suggestions, a long-flag-shaped token yields close matches
among the registered long flags, anything else yields the metavar of the
next pending positional when one remains. -/
def get_possible_matches (P : Parser) (s : State) : List String :=
  match s.args with
  | [] => []
  | a :: _ =>
    let flag := (partitionEq a).1
    if is_short_flag flag then []
    else if is_long_flag flag then
      get_close_matches flag (P.long_flags.map (fun kp => kp.1))
    else
      match s.positional with
      | [] => []
      | p :: _ => [p.metavar]

/-- The surfaced `UnexpetedParameter` condition: the offending token and
the computed suggestions. -/
structure UnexpectedErr where
  arg : String
  possibilities : List String
deriving DecidableEq, Repr

/-- The observable output of a parse: captured raw occurrences grouped by
descriptor identity, plus leftover tokens. (The per-parameter
`process_args` value conversion is the excluded downstream collaborator
and not modelled.) -/
structure ParseOutput where
  captured : List (Nat × List ParameterArg)
  leftover : List String
deriving DecidableEq, Repr

/-- `Parser.parse_args`: run the search; in strict mode
(`raise_on_unexpected`) any remaining or deferred token raises
`UnexpetedParameter` carrying the head remaining token (after replaying
deferred tokens when the args stack is empty; the args stack is nonempty
at the `peek()` by construction, so the `headD` default is unreachable)
and the computed suggestions; otherwise deferred tokens are replayed and
the captures and leftover tokens are returned. -/
def parse_args (P : Parser) (i raise_on_unexpected : Bool) (tf lf : Nat)
    (argv : List String) : Option (Except UnexpectedErr ParseOutput) :=
  match run_parse P i tf lf argv with
  | none => none
  | some r =>
    let st := r.state
    if raise_on_unexpected ∧ (st.args ≠ [] ∨ st.unused_args ≠ []) then
      let st1 := if st.args = [] then st.reset_unused_args else st
      some (.error ⟨st1.args.headD "", get_possible_matches P st1⟩)
    else
      some (.ok ⟨st.get_captured_args, st.reset_unused_args.args⟩)

/-! ## Concrete descriptor probes and grammars used by the claims -/

/-- The probe of a string-typed descriptor (`Scalar` over `str`): accepts
any occurrence carrying a value, since `str()` never fails. -/
def strProbe : ParameterArg → Bool
  | .positionalArg _ => true
  | .optionArg _ v => v.isSome

/-- The probe of a zero-arity boolean flag descriptor (`Flag.matches`):
accepts option occurrences carrying no inline value. -/
def flagProbe : ParameterArg → Bool
  | .optionArg _ none => true
  | _ => false

/-- A probe accepting every occurrence. -/
def anyProbe : ParameterArg → Bool := fun _ => true

/-- A probe rejecting every occurrence (as `AnyType.matches` does). -/
def noProbe : ParameterArg → Bool := fun _ => false

/-- A greedy unbounded zero-minimum variadic arity (the `*` literal). -/
def starNArgs : NArgs := .variadic (.int 1) 0 none true

/-- A string-typed required option taking one value. -/
def strOptParam : Param := ⟨1, .int 1, strProbe, "OPT"⟩

/-- A greedy unbounded optional variadic positional. -/
def starPos (id : Nat) : Param := ⟨id, starNArgs, anyProbe, "VALUES"⟩

/-- A fixed-arity positional. -/
def intPos (id k : Nat) : Param := ⟨id, .int k, anyProbe, "ITEMS"⟩

/-- The grammar of claim C2: the required option `--opt` (arity 1) plus
one optional greedy variadic positional. -/
def c2Parser : Parser := ⟨[], [("--opt", strOptParam)], [starPos 2]⟩

/-- The grammar family of claim C3: a greedy unbounded variadic
positional immediately followed by a fixed-arity-k positional. -/
def c3Parser (k : Nat) : Parser := ⟨[], [], [starPos 1, intPos 2 k]⟩

/-! ## Claim C10 -/

/-- C10: `as_optional` is idempotent, returns a variadic arity with
minimum 0 unchanged, and wraps every other arity in
`Variadic(a, min=0, max=1, greedy=True)`. -/
theorem claimC10_as_optional (a : NArgs) :
    a.as_optional.as_optional = a.as_optional ∧
    (∀ v mx g, a = NArgs.variadic v 0 mx g → a.as_optional = a) ∧
    ((∀ v mx g, a ≠ NArgs.variadic v 0 mx g) →
      a.as_optional = NArgs.variadic a 0 (some 1) true) := by
  rcases a with n | ⟨v, mn, mx, g⟩
  · refine ⟨rfl, ?_, fun _ => rfl⟩
    intro _ _ _ h
    cases h
  · rcases mn with _ | m
    · exact ⟨rfl, fun _ _ _ _ => rfl, fun h => absurd rfl (h v mx g)⟩
    · refine ⟨rfl, ?_, fun _ => rfl⟩
      intro _ _ _ h
      cases h

/-- Witness for C10 at the fixed arity 2 (wrapped) and at a zero-minimum
variadic (unchanged). -/
theorem claimC10_witness :
    (NArgs.int 2).as_optional = NArgs.variadic (NArgs.int 2) 0 (some 1) true ∧
    starNArgs.as_optional = starNArgs :=
  ⟨(claimC10_as_optional (NArgs.int 2)).2.2 (by intro v mx g h; cases h),
    (claimC10_as_optional starNArgs).2.1 (NArgs.int 1) none true rfl⟩

/-! ## Claim C1 -/

/-- C1: opening (or reopening) a variadic frame whose remaining minimum
is zero produces exactly two threads. For a greedy arity the current
thread keeps the new frame (the keep-consuming hypothesis, explored
first, since the worklist is only consulted after this thread dies) and
the state without the frame is pushed onto the worklist; for a lazy
arity the state with the frame is pushed and the current thread
continues without it, so the stop-now hypothesis is explored first. -/
theorem claimC1_zero_min_fork (threads : List State) (s : State) (param : Param)
    (v : NArgs) (mx : Option Nat) (flag value : Option String) (has_value : Bool) :
    push_frame threads s param (some (NArgs.variadic v 0 mx true)) flag value has_value =
      (s :: threads,
        { s with stack :=
            ⟨param, NArgs.variadic v 0 mx true, flag, value, has_value⟩ :: s.stack }) ∧
    push_frame threads s param (some (NArgs.variadic v 0 mx false)) flag value has_value =
      ({ s with stack :=
            ⟨param, NArgs.variadic v 0 mx false, flag, value, has_value⟩ :: s.stack }
          :: threads,
        s) :=
  ⟨rfl, rfl⟩

/-! ## Claim C2 -/

/-- C2: on the grammar with the required option `--opt` (arity 1) and an
optional greedy variadic positional, parsing
`["--opt", "v", "a", "b", "c"]` succeeds with `opt` capturing `v`, the
positional capturing `a b c`, and no leftover tokens. -/
theorem claimC2_example :
    parse_args c2Parser true true 30 15 ["--opt", "v", "a", "b", "c"] =
      some (.ok
        ⟨[(2, [.positionalArg "a", .positionalArg "b", .positionalArg "c"]),
          (1, [.optionArg "--opt" (some "v")])], []⟩) := by
  rfl

/-! ## Claim C6 -/

/-- Whether an arity permits zero occurrences — in the engine, an
"optional" positional is exactly one whose arity was loosened by
`as_optional` into a variadic with minimum 0. -/
def zeroCapable : NArgs → Bool
  | .variadic _ 0 _ _ => true
  | _ => false

/-- The loss the spec's words describe — "(count of still-unsatisfied
REQUIRED positionals, count of still-unconsumed tokens)" — written from
the spec for comparison with the source's `State.loss`, which counts all
remaining positional descriptors, optional ones included. -/
def specClaimedLoss (s : State) : Nat × Nat :=
  ((s.positional.filter (fun p => !zeroCapable p.nargs)).length, s.args.length)

/-- Counterexample to C6: the root search state of a parse with a single
optional (zero-minimum variadic) positional and no tokens has
`loss() = (1, 0)` — the optional positional is counted — while the
claimed loss (required positionals only) is `(0, 0)`. -/
theorem claimC6_counterexample :
    State.loss ⟨[], [starPos 1], true, [], [], []⟩ = (1, 0) ∧
    specClaimedLoss ⟨[], [starPos 1], true, [], [], []⟩ = (0, 0) ∧
    ((1, 0) : Nat × Nat) ≠ (0, 0) :=
  ⟨rfl, rfl, by decide⟩

/-- C6 (amended): `loss()` is the pair (count of ALL remaining positional
descriptors, required or optional; count of unconsumed tokens), compared
lexicographically; a failed non-root thread replaces the current best
exactly when its loss is strictly smaller; and when the worklist empties
the current best is returned. -/
theorem claimC6_loss_ranking (s : State) :
    s.loss = (s.positional.length, s.args.length) ∧
    (∀ a b : Nat × Nat, lossLt a b = true ↔ a.1 < b.1 ∨ (a.1 = b.1 ∧ a.2 < b.2)) ∧
    (∀ (P : Parser) (i : Bool) (tf lf : Nat) (ts0 ts1 : List State) (t s1 b : State),
      parse_thread P i tf ts0 t = some ⟨ts1, s1, some .matchError⟩ →
      parse_args_loop P i tf (lf + 1) (t :: ts0) b false =
        parse_args_loop P i tf lf ts1 (if lossLt s1.loss b.loss then s1 else b) false) ∧
    (∀ (P : Parser) (i : Bool) (tf lf : Nat) (b : State) (fst : Bool),
      parse_args_loop P i tf (lf + 1) [] b fst = some (.exhausted b)) := by
  refine ⟨rfl, ?_, ?_, fun _ _ _ _ _ _ => rfl⟩
  · intro a b
    simp only [lossLt, Bool.or_eq_true, Bool.and_eq_true, Nat.blt_eq, Nat.beq_eq]
  · intro P i tf lf ts0 ts1 t s1 b h
    simp only [parse_args_loop, h, Bool.false_eq_true, if_false]

/-- The grammar and states of the C6 witness: one required fixed-arity-1
positional and no tokens; the only thread fails with everything consumed. -/
def c6Parser : Parser := ⟨[], [], [intPos 1 1]⟩

/-- The root state of the C6 witness run. -/
def c6Root : State := ⟨[], [intPos 1 1], true, [], [], []⟩

/-- The failed state of the C6 witness run. -/
def c6Err : State := ⟨[], [], false, [], [], []⟩

/-- Witness for C6: the loop-step and exhaustion equations applied at a
concrete failing thread, and the lexicographic reading of a concrete
comparison. -/
theorem claimC6_witness :
    (parse_args_loop c6Parser true 3 1 [c6Root] c6Root false =
      parse_args_loop c6Parser true 3 0 []
        (if lossLt c6Err.loss c6Root.loss then c6Err else c6Root) false) ∧
    lossLt (0, 0) (1, 0) = true ∧
    parse_args_loop c6Parser true 3 1 [] c6Root true = some (.exhausted c6Root) :=
  ⟨(claimC6_loss_ranking c6Root).2.2.1 c6Parser true 3 0 [] [] c6Root c6Err c6Root rfl,
    ((claimC6_loss_ranking c6Root).2.1 (0, 0) (1, 0)).mpr (Or.inl (by decide)),
    (claimC6_loss_ranking c6Root).2.2.2 c6Parser true 3 0 c6Root true⟩

/-! ## Claim C8 -/

/-- Association-list lookup keyed by descriptor identity (the observable
interface of the Python dict returned by `get_captured_args`). -/
def listLookup : List (Nat × List ParameterArg) → Nat → Option (List ParameterArg)
  | [], _ => none
  | (k, v) :: rest, id0 => if k = id0 then some v else listLookup rest id0

/-- First-occurrence deduplication with an explicit seen accumulator. -/
def dedupFirstGo (seen : List Nat) : List Nat → List Nat
  | [] => []
  | k :: ks =>
    if k ∈ seen then dedupFirstGo seen ks else k :: dedupFirstGo (k :: seen) ks

/-- The sequence of first occurrences of a list of keys, in order. -/
def dedupFirst (l : List Nat) : List Nat := dedupFirstGo [] l

/-- Combining an existing dict entry with newly appended values. -/
def combineOpt : Option (List ParameterArg) → List ParameterArg → Option (List ParameterArg)
  | none, [] => none
  | none, v :: vs => some (v :: vs)
  | some o, vs => some (o ++ vs)

theorem listLookup_insertAppend (acc : List (Nat × List ParameterArg)) (k : Nat)
    (v : ParameterArg) (id0 : Nat) :
    listLookup (insertAppend acc k v) id0 =
      if id0 = k then
        (match listLookup acc k with
          | none => some [v]
          | some o => some (o ++ [v]))
      else listLookup acc id0 := by
  induction acc with
  | nil =>
    by_cases h : id0 = k
    · subst h; simp [insertAppend, listLookup]
    · simp [insertAppend, listLookup, h, Ne.symm h]
  | cons hd tl ih =>
    obtain ⟨k1, vs⟩ := hd
    by_cases hk : k1 = k
    · subst hk
      by_cases h : id0 = k1
      · subst h; simp [insertAppend, listLookup]
      · simp [insertAppend, listLookup, h, Ne.symm h]
    · by_cases h : k1 = id0
      · subst h
        have h2 : ¬k1 = k := hk
        simp [insertAppend, listLookup, hk, Ne.symm hk]
      · simp [insertAppend, listLookup, hk, h, ih]

theorem listLookup_foldl_insertAppend (L : List (Param × ParameterArg))
    (acc : List (Nat × List ParameterArg)) (id0 : Nat) :
    listLookup (L.foldl (fun acc pa => insertAppend acc pa.1.id pa.2) acc) id0 =
      combineOpt (listLookup acc id0)
        ((L.filter (fun pa => pa.1.id == id0)).map (fun pa => pa.2)) := by
  induction L generalizing acc with
  | nil =>
    simp only [List.foldl_nil, List.filter_nil, List.map_nil]
    cases h : listLookup acc id0 <;> simp [combineOpt]
  | cons pa L ih =>
    simp only [List.foldl_cons]
    rw [ih, listLookup_insertAppend]
    by_cases h : id0 = pa.1.id
    · subst h
      simp only [beq_self_eq_true, if_true, List.filter_cons_of_pos, List.map_cons]
      cases hl : listLookup acc pa.1.id <;> simp [combineOpt, hl]
    · have hb : (pa.1.id == id0) = false := by
        simp [beq_eq_false_iff_ne]
        exact fun hh => h hh.symm
      simp [h, hb, List.filter_cons, combineOpt]

theorem listLookup_map_reverse (m : List (Nat × List ParameterArg)) (id0 : Nat) :
    listLookup (m.map (fun kv => (kv.1, kv.2.reverse))) id0 =
      (listLookup m id0).map List.reverse := by
  induction m with
  | nil => simp [listLookup]
  | cons hd tl ih =>
    obtain ⟨k, v⟩ := hd
    by_cases h : k = id0 <;> simp [listLookup, h, ih]

theorem keys_insertAppend (acc : List (Nat × List ParameterArg)) (k : Nat)
    (v : ParameterArg) :
    (insertAppend acc k v).map Prod.fst =
      if k ∈ acc.map Prod.fst then acc.map Prod.fst else acc.map Prod.fst ++ [k] := by
  induction acc with
  | nil => simp [insertAppend]
  | cons hd tl ih =>
    obtain ⟨k1, vs⟩ := hd
    by_cases h : k1 = k
    · subst h; simp [insertAppend]
    · by_cases hm : k ∈ tl.map Prod.fst <;>
        simp [insertAppend, h, Ne.symm h, ih, hm]

theorem dedupFirstGo_congr (s1 s2 : List Nat) (l : List Nat)
    (h : ∀ x, x ∈ s1 ↔ x ∈ s2) : dedupFirstGo s1 l = dedupFirstGo s2 l := by
  induction l generalizing s1 s2 with
  | nil => rfl
  | cons k ks ih =>
    by_cases hk : k ∈ s1
    · simp [dedupFirstGo, hk, (h k).mp hk, ih s1 s2 h]
    · have hk2 : k ∉ s2 := fun hh => hk ((h k).mpr hh)
      simp only [dedupFirstGo, hk, hk2, if_false]
      rw [ih (k :: s1) (k :: s2) (by intro x; simp [h x])]

theorem keys_foldl_insertAppend (L : List (Param × ParameterArg))
    (acc : List (Nat × List ParameterArg)) :
    (L.foldl (fun acc pa => insertAppend acc pa.1.id pa.2) acc).map Prod.fst =
      acc.map Prod.fst ++
        dedupFirstGo (acc.map Prod.fst) (L.map (fun pa => pa.1.id)) := by
  induction L generalizing acc with
  | nil => simp [dedupFirstGo]
  | cons pa L ih =>
    simp only [List.foldl_cons, List.map_cons]
    rw [ih, keys_insertAppend]
    by_cases h : pa.1.id ∈ acc.map Prod.fst
    · simp [dedupFirstGo, h]
    · simp only [h, if_false, dedupFirstGo]
      rw [dedupFirstGo_congr ((acc.map Prod.fst) ++ [pa.1.id]) (pa.1.id :: acc.map Prod.fst)
        (L.map (fun pa => pa.1.id)) (by intro x; simp; tauto)]
      simp

/-- C8 (amended): in the materialized capture mapping, each descriptor's
entry is exactly its captures in original consumption (input) order —
`captured_args` holds most-recent-first, so the entry is the reversed
filtered log — and the descriptors appear in the mapping ordered by
their MOST RECENT capture, most recently captured first (the first
occurrence of each descriptor when walking the log top-down), not by
their first capture. -/
theorem claimC8_capture_mapping (s : State) (id0 : Nat) :
    (listLookup s.get_captured_args id0 =
      (match ((s.captured_args.filter (fun pa => pa.1.id == id0)).map
          (fun pa => pa.2)).reverse with
        | [] => none
        | v :: vs => some (v :: vs))) ∧
    s.get_captured_args.map Prod.fst =
      dedupFirst (s.captured_args.map (fun pa => pa.1.id)) := by
  constructor
  · show listLookup ((State.get_captured_args s)) id0 = _
    unfold State.get_captured_args
    rw [listLookup_map_reverse, listLookup_foldl_insertAppend]
    simp only [listLookup]
    cases h : (List.filter (fun pa => pa.1.id == id0) s.captured_args).map
        (fun pa => pa.2) with
    | nil => simp [combineOpt, h]
    | cons v vs =>
      simp only [combineOpt, Option.map_some]
      cases hr : (v :: vs).reverse with
      | nil => exact absurd hr (by simp)
      | cons w ws => simp [← hr]
  · unfold State.get_captured_args dedupFirst
    rw [List.map_map]
    have : (Prod.fst ∘ fun kv : Nat × List ParameterArg => (kv.1, kv.2.reverse)) =
        Prod.fst := rfl
    rw [this, keys_foldl_insertAppend]
    rfl

/-- The grammar of the C8 counterexample: positional A (arity 1) then
positional B (arity 2). -/
def c8Parser : Parser := ⟨[], [], [intPos 1 1, intPos 2 2]⟩

/-- Counterexample to C8: parsing `x y z` captures A then B then B, so
the first captures occur in descriptor order A (id 1), B (id 2); but the
materialized mapping lists B first (descriptors are keyed in order of
most recent capture), so the mapping is not in order of first capture. -/
theorem claimC8_counterexample :
    parse_args c8Parser true true 30 15 ["x", "y", "z"] =
      some (.ok ⟨[(2, [.positionalArg "y", .positionalArg "z"]),
        (1, [.positionalArg "x"])], []⟩) ∧
    ([(2, [ParameterArg.positionalArg "y", ParameterArg.positionalArg "z"]),
        (1, [ParameterArg.positionalArg "x"])] ≠
      [(1, [ParameterArg.positionalArg "x"]),
        (2, [ParameterArg.positionalArg "y", ParameterArg.positionalArg "z"])]) :=
  ⟨by rfl, by decide⟩

/-! ## Claim C5 -/

theorem push_frame_parse_options (ts : List State) (s : State) (param : Param)
    (nargs : Option NArgs) (fl v : Option String) (hv : Bool) :
    (push_frame ts s param nargs fl v hv).2.parse_options = s.parse_options ∧
    ∀ x ∈ (push_frame ts s param nargs fl v hv).1,
      x ∈ ts ∨ x.parse_options = s.parse_options := by
  rcases nargs with _ | na
  · exact ⟨rfl, fun x hx => Or.inl hx⟩
  · rcases na with n | ⟨w, mn, mx, g⟩
    · exact ⟨rfl, fun x hx => Or.inl hx⟩
    · rcases mn with _ | m
      · rcases g with _ | _
        · refine ⟨rfl, ?_⟩
          intro x hx
          simp only [push_frame, List.mem_cons] at hx
          rcases hx with h | h
          · subst h; exact Or.inr rfl
          · exact Or.inl h
        · refine ⟨rfl, ?_⟩
          intro x hx
          simp only [push_frame, List.mem_cons] at hx
          rcases hx with h | h
          · subst h; exact Or.inr rfl
          · exact Or.inl h
      · exact ⟨rfl, fun x hx => Or.inl hx⟩

theorem get_int_frame_arg_pop_parse_options (s : State) (fl : Option String)
    (hv : Bool) (a : ParameterArg) (s1 : State) :
    get_int_frame_arg_pop s fl hv = some (a, s1) → s1.parse_options = s.parse_options := by
  unfold get_int_frame_arg_pop
  intro h
  by_cases hb : hv = true
  · simp [hb] at h
  · rw [if_neg hb] at h
    rcases hargs : s.args with _ | ⟨x, rest⟩ <;> rw [hargs] at h
    · cases h
    · rcases fl with _ | fl0 <;>
        simp only [Option.some.injEq, Prod.mk.injEq] at h <;>
        · rw [← h.2]

theorem get_int_frame_arg_parse_options (s : State) (fl v : Option String)
    (hv : Bool) (n : Nat) (a : ParameterArg) (s1 : State) :
    get_int_frame_arg s fl v hv n = some (a, s1) → s1.parse_options = s.parse_options := by
  rcases fl with _ | fl0
  · exact fun h => get_int_frame_arg_pop_parse_options s none hv a s1 h
  · intro h
    have h2 : (if n = 0 ∧ v = none then
          some (ParameterArg.optionArg fl0 none, s)
        else if n = 1 ∧ v ≠ none then some (ParameterArg.optionArg fl0 v, s)
        else get_int_frame_arg_pop s (some fl0) hv) = some (a, s1) := h
    by_cases h0 : n = 0 ∧ v = none
    · rw [if_pos h0] at h2
      cases h2
      rfl
    · rw [if_neg h0] at h2
      by_cases h1 : n = 1 ∧ v ≠ none
      · rw [if_pos h1] at h2
        cases h2
        rfl
      · rw [if_neg h1] at h2
        exact get_int_frame_arg_pop_parse_options s (some fl0) hv a s1 h2

theorem parse_int_frame_parse_options (ts : List State) (s : State) (param : Param)
    (fl v : Option String) (hv : Bool) (n : Nat) :
    (parse_int_frame ts s param fl v hv n).2.1.parse_options = s.parse_options ∧
    ∀ x ∈ (parse_int_frame ts s param fl v hv n).1,
      x ∈ ts ∨ x.parse_options = s.parse_options := by
  unfold parse_int_frame
  rcases hg : get_int_frame_arg s fl v hv n with _ | ⟨a, s1⟩
  · exact ⟨rfl, fun x hx => Or.inl hx⟩
  · have hs1 : s1.parse_options = s.parse_options :=
      get_int_frame_arg_parse_options s fl v hv n a s1 hg
    by_cases hm : param.matches_arg a = true
    · simp only [hm, if_true]
      have hcap : (s1.capture_arg param a).parse_options = s.parse_options := hs1
      have hp := push_frame_parse_options ts (s1.capture_arg param a) param
        (NArgs.int n).decrement fl none false
      refine ⟨by rw [hp.1]; exact hcap, ?_⟩
      intro x hx
      rcases hp.2 x hx with h | h
      · exact Or.inl h
      · exact Or.inr (by rw [h]; exact hcap)
    · simp only [Bool.not_eq_true] at hm
      simp only [hm, Bool.false_eq_true, if_false]
      exact ⟨hs1, fun x hx => Or.inl hx⟩

theorem parse_frame_go_parse_options (na : NArgs) :
    ∀ (ts : List State) (s : State) (param : Param) (fl v : Option String) (hv : Bool),
    (parse_frame_go ts s param fl v hv na).2.1.parse_options = s.parse_options ∧
    ∀ x ∈ (parse_frame_go ts s param fl v hv na).1,
      x ∈ ts ∨ x.parse_options = s.parse_options := by
  induction na with
  | int n =>
    intro ts s param fl v hv
    exact parse_int_frame_parse_options ts s param fl v hv n
  | variadic w mn mx g ihw =>
    intro ts s param fl v hv
    unfold parse_frame_go
    rcases hc : parse_frame_go ts s param fl none false w with ⟨ts1, s1, e⟩
    have hw := ihw ts s param fl none false
    rw [hc] at hw
    rcases e with _ | e0
    · simp only
      have hp := push_frame_parse_options ts1 s1 param
        (NArgs.variadic w mn mx g).decrement fl none false
      refine ⟨by rw [hp.1]; exact hw.1, ?_⟩
      intro x hx
      rcases hp.2 x hx with h | h
      · rcases hw.2 x h with h2 | h2
        · exact Or.inl h2
        · exact Or.inr h2
      · exact Or.inr (by rw [h]; exact hw.1)
    · exact ⟨hw.1, hw.2⟩

theorem parse_frame_parse_options (ts : List State) (s : State) (f : StackFrame) :
    (parse_frame ts s f).2.1.parse_options = s.parse_options ∧
    ∀ x ∈ (parse_frame ts s f).1, x ∈ ts ∨ x.parse_options = s.parse_options :=
  parse_frame_go_parse_options f.nargs ts s f.param f.flag f.value f.has_value

/-- C5: a bare `--` token is consumed without producing any occurrence
and permanently switches flag parsing off for the thread. First
conjunct: `_parse_option` on a `--` head consumes it, clears
`parse_options`, and touches nothing else (in particular the token is
never looked up in a flag table and no occurrence is captured). Second
conjunct: once `parse_options` is off, the run of the thread is
identical for ANY two engines — the flag tables are never consulted
again, so no later token can be classified or consumed as a flag. Third
conjunct: `parse_options` stays off in the thread's final state and in
every thread it forks (states it adds to the worklist). -/
theorem claimC5_double_dash (P Q : Parser) (i : Bool) :
    (∀ (ts : List State) (s : State) (rest : List String), s.args = "--" :: rest →
      parse_option P i ts s = (ts, { s with args := rest, parse_options := false }, none)) ∧
    (∀ (f : Nat) (ts : List State) (s : State), s.parse_options = false →
      parse_thread P i f ts s = parse_thread Q i f ts s) ∧
    (∀ (f : Nat) (ts : List State) (s : State) (out : StepOut),
      s.parse_options = false → parse_thread P i f ts s = some out →
      out.state.parse_options = false ∧
        ∀ x ∈ out.threads, x ∈ ts ∨ x.parse_options = false) := by
  refine ⟨?_, ?_, ?_⟩
  · intro ts s rest h
    unfold parse_option
    rw [h]
    simp
  · intro f
    induction f with
    | zero => intro ts s _; rfl
    | succ f ih =>
      intro ts s hs
      unfold parse_thread
      rcases hst : s.stack with _ | ⟨f0, stackRest⟩
      · simp only [hs, Bool.false_eq_true, if_false]
        rcases s.positional with _ | ⟨p, ps⟩
        · rfl
        · simp only
          apply ih
          have := (push_frame_parse_options ts
            { s.reset_unused_args with positional := ps } p (some p.nargs)
            none none false).1
          rw [this]
          exact hs
      · simp only
        rcases hpf : parse_frame ts { s with stack := stackRest } f0 with ⟨ts1, s1, e⟩
        rcases e with _ | e0
        · simp only
          apply ih
          have := (parse_frame_parse_options ts { s with stack := stackRest } f0).1
          rw [hpf] at this
          exact this.trans hs
        · rfl
  · intro f
    induction f with
    | zero => intro ts s out _ h; cases h
    | succ f ih =>
      intro ts s out hs h
      unfold parse_thread at h
      rcases hst : s.stack with _ | ⟨f0, stackRest⟩ <;> rw [hst] at h
      · simp only [hs, Bool.false_eq_true, if_false] at h
        rcases hpos : s.positional with _ | ⟨p, ps⟩ <;> rw [hpos] at h
        · cases h.symm
          exact ⟨hs, fun x hx => Or.inl hx⟩
        · simp only at h
          have hp := push_frame_parse_options ts
            { s.reset_unused_args with positional := ps } p (some p.nargs) none none false
          have hrec := ih _ _ out (by rw [hp.1]; exact hs) h
          refine ⟨hrec.1, ?_⟩
          intro x hx
          rcases hrec.2 x hx with h2 | h2
          · rcases hp.2 x h2 with h3 | h3
            · exact Or.inl h3
            · exact Or.inr (h3.trans hs)
          · exact Or.inr h2
      · simp only at h
        rcases hpf : parse_frame ts { s with stack := stackRest } f0 with ⟨ts1, s1, e⟩
        rw [hpf] at h
        have hfr := parse_frame_parse_options ts { s with stack := stackRest } f0
        rw [hpf] at hfr
        rcases e with _ | e0
        · simp only at h
          have hrec := ih _ _ out (hfr.1.trans hs) h
          refine ⟨hrec.1, ?_⟩
          intro x hx
          rcases hrec.2 x hx with h2 | h2
          · rcases hfr.2 x h2 with h3 | h3
            · exact Or.inl h3
            · exact Or.inr (h3.trans hs)
          · exact Or.inr h2
        · cases h.symm
          refine ⟨hfr.1.trans hs, ?_⟩
          intro x hx
          rcases hfr.2 x hx with h2 | h2
          · exact Or.inl h2
          · exact Or.inr (h2.trans hs)

/-- Witness for C5: the `--` step at a concrete state, flag-table
independence between two concrete distinct engines on a flag-off state
holding a flag-shaped token, and the permanence conclusion on its run. -/
theorem claimC5_witness :
    (parse_option c2Parser true [] ⟨["--", "a"], [], true, [], [], []⟩ =
      ([], ⟨["a"], [], false, [], [], []⟩, none)) ∧
    (parse_thread c2Parser true 3 [] ⟨["--opt", "v"], [], false, [], [], []⟩ =
      parse_thread c8Parser true 3 [] ⟨["--opt", "v"], [], false, [], [], []⟩) ∧
    (parse_thread c2Parser true 3 [] ⟨["--opt", "v"], [], false, [], [], []⟩ =
        some ⟨[], ⟨["--opt", "v"], [], false, [], [], []⟩, none⟩ →
      (⟨["--opt", "v"], [], false, [], [], []⟩ : State).parse_options = false) := by
  refine ⟨?_, ?_, ?_⟩
  · exact (claimC5_double_dash c2Parser c8Parser true).1 []
      ⟨["--", "a"], [], true, [], [], []⟩ ["a"] rfl
  · exact (claimC5_double_dash c2Parser c8Parser true).2.1 3 []
      ⟨["--opt", "v"], [], false, [], [], []⟩ rfl
  · intro h
    exact ((claimC5_double_dash c2Parser c8Parser true).2.2 3 []
      ⟨["--opt", "v"], [], false, [], [], []⟩ _ rfl h).1

/-! ## Single-step characterizations of the thread loop -/

theorem parse_thread_step_frame (P : Parser) (i : Bool) (f : Nat) (ts : List State)
    (s : State) (f0 : StackFrame) (stackRest : List StackFrame)
    (ts1 : List State) (s1 : State)
    (hst : s.stack = f0 :: stackRest)
    (h : parse_frame ts { s with stack := stackRest } f0 = (ts1, s1, none)) :
    parse_thread P i (f + 1) ts s = parse_thread P i f ts1 s1 := by
  conv_lhs => unfold parse_thread
  rw [hst]
  simp only [h]

theorem parse_thread_step_frame_err (P : Parser) (i : Bool) (f : Nat) (ts : List State)
    (s : State) (f0 : StackFrame) (stackRest : List StackFrame)
    (ts1 : List State) (s1 : State) (e : PErr)
    (hst : s.stack = f0 :: stackRest)
    (h : parse_frame ts { s with stack := stackRest } f0 = (ts1, s1, some e)) :
    parse_thread P i (f + 1) ts s = some ⟨ts1, s1, some e⟩ := by
  conv_lhs => unfold parse_thread
  rw [hst]
  simp only [h]

theorem parse_thread_step_option (P : Parser) (i : Bool) (f : Nat) (ts : List State)
    (s : State) (ts1 : List State) (s1 : State)
    (hst : s.stack = []) (hpo : s.parse_options = true)
    (h : parse_option P i ts s = (ts1, s1, none)) :
    parse_thread P i (f + 1) ts s = parse_thread P i f ts1 s1 := by
  conv_lhs => unfold parse_thread
  rw [hst]
  simp only [hpo, if_true, h]

theorem parse_thread_step_option_err (P : Parser) (i : Bool) (f : Nat) (ts : List State)
    (s : State) (ts1 : List State) (s1 : State) (e : PErr)
    (hst : s.stack = []) (hpo : s.parse_options = true)
    (h : parse_option P i ts s = (ts1, s1, some e)) :
    parse_thread P i (f + 1) ts s = some ⟨ts1, s1, some e⟩ := by
  conv_lhs => unfold parse_thread
  rw [hst]
  simp only [hpo, if_true, h]

theorem parse_thread_step_positional (P : Parser) (i : Bool) (f : Nat) (ts : List State)
    (s : State) (p : Param) (ps : List Param)
    (hst : s.stack = []) (hpo : s.parse_options = false) (hpos : s.positional = p :: ps) :
    parse_thread P i (f + 1) ts s =
      parse_thread P i f
        (push_frame ts { s.reset_unused_args with positional := ps } p (some p.nargs)
          none none false).1
        (push_frame ts { s.reset_unused_args with positional := ps } p (some p.nargs)
          none none false).2 := by
  conv_lhs => unfold parse_thread
  rw [hst]
  simp only [hpo, Bool.false_eq_true, if_false, hpos]

theorem parse_thread_success (P : Parser) (i : Bool) (f : Nat) (ts : List State)
    (s : State)
    (hst : s.stack = []) (hpo : s.parse_options = false) (hpos : s.positional = []) :
    parse_thread P i (f + 1) ts s = some ⟨ts, s, none⟩ := by
  conv_lhs => unfold parse_thread
  rw [hst]
  simp only [hpo, Bool.false_eq_true, if_false, hpos]

/-! ## Claim C9 -/

theorem parse_option_unknown_long (P : Parser) (i : Bool) (ts : List State) (s : State)
    (arg : String) (rest : List String)
    (hargs : s.args = arg :: rest) (hdd : arg ≠ "--")
    (hshort : is_short_arg (partitionEq arg).1 = false)
    (hlong : is_long_arg (partitionEq arg).1 = true)
    (hlk : lookupFlag P.long_flags (partitionEq arg).1 = none) :
    parse_option P i ts s = (ts, { s with args := rest }, some (.unexpected arg)) := by
  unfold parse_option
  rw [hargs]
  simp only [hdd, if_false, hshort, Bool.false_eq_true, hlong, if_true, parse_long, hlk]

theorem parse_option_unknown_short (P : Parser) (i : Bool) (ts : List State) (s : State)
    (arg : String) (rest : List String) (c : Char) (cs : List Char)
    (hargs : s.args = arg :: rest) (hdd : arg ≠ "--")
    (hshort : is_short_arg (partitionEq arg).1 = true)
    (hrev : ((partitionEq arg).1.data.drop 1).reverse = c :: cs)
    (hlk : lookupFlag P.short_flags (String.mk ['-', c]) = none) :
    parse_option P i ts s = (ts, { s with args := rest }, some (.unexpected arg)) := by
  unfold parse_option
  rw [hargs]
  simp only [hdd, if_false, hshort, if_true, parse_short, hrev, parse_short_go, hlk]

/-- C9: with `raise_on_unexpected = False` the public entry point never
surfaces the unexpected-token error (first conjunct); a thread whose next
token is an unknown long flag (second conjunct) or whose short cluster's
first-resolved character is unknown (third conjunct) raises
`UnexpetedParameter` immediately with the token consumed; and whenever
the popped thread raises it, the whole search returns at once with the
offending token pushed back as the head of that thread's remaining
tokens — the equation holds for every remaining worklist, so no pending
thread is ever explored (fourth conjunct). -/
theorem claimC9_unknown_flag_stops (P : Parser) (i : Bool) :
    (∀ (tf lf : Nat) (argv : List String) (e : UnexpectedErr),
      parse_args P i false tf lf argv ≠ some (.error e)) ∧
    (∀ (f : Nat) (ts : List State) (s : State) (arg : String) (rest : List String),
      s.parse_options = true → s.stack = [] → s.args = arg :: rest → arg ≠ "--" →
      is_short_arg (partitionEq arg).1 = false →
      is_long_arg (partitionEq arg).1 = true →
      lookupFlag P.long_flags (partitionEq arg).1 = none →
      parse_thread P i (f + 1) ts s =
        some ⟨ts, { s with args := rest }, some (.unexpected arg)⟩) ∧
    (∀ (f : Nat) (ts : List State) (s : State) (arg : String) (rest : List String)
        (c : Char) (cs : List Char),
      s.parse_options = true → s.stack = [] → s.args = arg :: rest → arg ≠ "--" →
      is_short_arg (partitionEq arg).1 = true →
      ((partitionEq arg).1.data.drop 1).reverse = c :: cs →
      lookupFlag P.short_flags (String.mk ['-', c]) = none →
      parse_thread P i (f + 1) ts s =
        some ⟨ts, { s with args := rest }, some (.unexpected arg)⟩) ∧
    (∀ (tf lf : Nat) (ts0 ts1 : List State) (t s1 : State) (a : String) (b : State)
        (fst : Bool),
      parse_thread P i tf ts0 t = some ⟨ts1, s1, some (.unexpected a)⟩ →
      parse_args_loop P i tf (lf + 1) (t :: ts0) b fst =
        some (.unexpected { s1 with args := a :: s1.args })) := by
  refine ⟨?_, ?_, ?_, ?_⟩
  · intro tf lf argv e h
    unfold parse_args at h
    rcases hrun : run_parse P i tf lf argv with _ | r <;> rw [hrun] at h <;> simp at h
  · intro f ts s arg rest hpo hst hargs hdd hshort hlong hlk
    exact parse_thread_step_option_err P i f ts s ts { s with args := rest }
      (.unexpected arg) hst hpo
      (parse_option_unknown_long P i ts s arg rest hargs hdd hshort hlong hlk)
  · intro f ts s arg rest c cs hpo hst hargs hdd hshort hrev hlk
    exact parse_thread_step_option_err P i f ts s ts { s with args := rest }
      (.unexpected arg) hst hpo
      (parse_option_unknown_short P i ts s arg rest c cs hargs hdd hshort hrev hlk)
  · intro tf lf ts0 ts1 t s1 a b fst h
    unfold parse_args_loop
    simp only [h]

/-- Witness for C9: on the grammar with only the long flag `--opt`, a
thread holding the unknown flag `--nope` raises immediately, the whole
search (with another pending thread in the worklist) returns it with the
token pushed back, and running the parse without strict mode raises
nothing. -/
theorem claimC9_witness :
    (parse_thread c2Parser true 5 [c6Root] ⟨["--nope"], [], true, [], [], []⟩ =
      some ⟨[c6Root], ⟨[], [], true, [], [], []⟩, some (.unexpected "--nope")⟩) ∧
    (parse_args_loop c2Parser true 5 3 [⟨["--nope"], [], true, [], [], []⟩, c6Root]
        c6Root true =
      some (.unexpected ⟨["--nope"], [], true, [], [], []⟩)) ∧
    parse_args c2Parser true false 5 3 ["--nope"] ≠
      some (.error ⟨"--nope", []⟩) := by
  refine ⟨?_, ?_, ?_⟩
  · exact (claimC9_unknown_flag_stops c2Parser true).2.1 4 [c6Root]
      ⟨["--nope"], [], true, [], [], []⟩ "--nope" [] rfl rfl rfl (by decide)
      (by decide) (by decide) rfl
  · exact (claimC9_unknown_flag_stops c2Parser true).2.2.2 5 2 [c6Root] [c6Root]
      ⟨["--nope"], [], true, [], [], []⟩ ⟨[], [], true, [], [], []⟩ "--nope" c6Root true
      ((claimC9_unknown_flag_stops c2Parser true).2.1 4 [c6Root]
        ⟨["--nope"], [], true, [], [], []⟩ "--nope" [] rfl rfl rfl (by decide)
        (by decide) (by decide) rfl)
  · exact (claimC9_unknown_flag_stops c2Parser true).1 5 3 ["--nope"] ⟨"--nope", []⟩

/-! ## Claim C7 -/

/-- The `--color` option descriptor of the C7 examples. -/
def colorParam : Param := ⟨1, .int 1, strProbe, "COLOR"⟩

/-- The grammar of the C7 example: the long flag `--color` only. -/
def c7Parser : Parser := ⟨[], [("--color", colorParam)], []⟩

/-- A required fixed-arity-1 positional whose probe rejects every token
(as a value-validating descriptor type may). -/
def rejectPos : Param := ⟨3, .int 1, noProbe, "PVAR"⟩

/-- A required fixed-arity-1 positional accepting anything, displayed as
`QVAR`. -/
def metaPos : Param := ⟨4, .int 1, anyProbe, "QVAR"⟩

/-- The grammar of the C7 counterexample: `--color` plus a rejecting
positional followed by an ordinary one. -/
def c7bParser : Parser := ⟨[], [("--color", colorParam)], [rejectPos, metaPos]⟩

/-- C7 (amended): the suggestions attached to the surfaced
unexpected-token error follow `_get_possible_matches` — close matches
against the long-flag names when the offending token (before its first
`=`) is LONG-FLAG-shaped, no suggestions when it is an exactly
two-character short flag, and the display name of the next pending
positional otherwise, i.e. precisely when the token is NOT flag-shaped
(first conjunct, the corrected rule); in strict mode a parse left with
remaining or deferred tokens surfaces the error carrying the head
remaining token and those suggestions (second conjunct); and the
spec's example holds: with only `--color` registered, `["--colour"]`
raises unexpected-token with suggestions `["--color"]` (third
conjunct). -/
theorem claimC7_suggestions :
    (∀ (P : Parser) (s : State) (a : String) (rest : List String), s.args = a :: rest →
      get_possible_matches P s =
        (if is_short_flag (partitionEq a).1 then []
         else if is_long_flag (partitionEq a).1 then
           get_close_matches (partitionEq a).1 (P.long_flags.map (fun kp => kp.1))
         else
           match s.positional with
           | [] => []
           | p :: _ => [p.metavar])) ∧
    (∀ (P : Parser) (i : Bool) (tf lf : Nat) (argv : List String) (r : ParseResult),
      run_parse P i tf lf argv = some r →
      (r.state.args ≠ [] ∨ r.state.unused_args ≠ []) →
      parse_args P i true tf lf argv =
        some (.error
          ⟨(if r.state.args = [] then r.state.reset_unused_args else r.state).args.headD "",
            get_possible_matches P
              (if r.state.args = [] then r.state.reset_unused_args else r.state)⟩)) ∧
    parse_args c7Parser true true 20 10 ["--colour"] =
      some (.error ⟨"--colour", ["--color"]⟩) := by
  refine ⟨?_, ?_, by rfl⟩
  · intro P s a rest h
    unfold get_possible_matches
    rw [h]
  · intro P i tf lf argv r hrun hne
    simp only [parse_args, hrun, eq_self_iff_true, true_and]
    rw [if_pos hne]

/-- Witness for C7's quantified conjuncts: the corrected suggestion rule
evaluated at the state holding the leftover `--colour`, and the
strict-mode raise applied to that concrete run. -/
theorem claimC7_witness :
    (get_possible_matches c7Parser ⟨["--colour"], [], true, [], [], []⟩ =
      (if is_short_flag (partitionEq "--colour").1 then []
       else if is_long_flag (partitionEq "--colour").1 then
         get_close_matches (partitionEq "--colour").1
           (c7Parser.long_flags.map (fun kp => kp.1))
       else
         match ([] : List Param) with
         | [] => []
         | p :: _ => [p.metavar])) ∧
    parse_args c7Parser true true 20 10 ["--colour"] =
      some (.error
        ⟨(State.mk ["--colour"] [] true [] [] []).args.headD "",
          get_possible_matches c7Parser (State.mk ["--colour"] [] true [] [] [])⟩) :=
  ⟨claimC7_suggestions.1 c7Parser (State.mk ["--colour"] [] true [] [] [])
      "--colour" [] rfl,
    claimC7_suggestions.2.1 c7Parser true 20 10 ["--colour"]
      (ParseResult.unexpected (State.mk ["--colour"] [] true [] [] [])) (by rfl)
      (Or.inl (by decide))⟩

/-- Counterexample to C7 as stated: on the grammar with the long flag
`--color` and positionals PVAR (rejecting) then QVAR, strict parsing of
`["x", "y"]` raises unexpected-token on `y` with suggestions `["QVAR"]`
— the metavar of the next pending positional — although `y` is not a
flag-shaped string, and approximate matching of `y` against the long
flags suggests nothing; both mechanisms the claim allows predict no such
suggestion. -/
theorem claimC7_counterexample :
    parse_args c7bParser true true 30 15 ["x", "y"] =
      some (.error ⟨"y", ["QVAR"]⟩) ∧
    get_close_matches "y" ["--color"] = [] ∧
    is_short_arg "y" = false ∧ is_long_arg "y" = false ∧
    (["QVAR"] : List String) ≠ [] :=
  ⟨by rfl, by rfl, by decide, by decide, by decide⟩

/-! ## Fuel irrelevance of the search (whenever it terminates) -/

theorem parse_thread_mono (P : Parser) (i : Bool) :
    ∀ (f : Nat) (ts : List State) (s : State) (o : StepOut),
      parse_thread P i f ts s = some o → parse_thread P i (f + 1) ts s = some o := by
  intro f
  induction f with
  | zero => intro ts s o h; cases h
  | succ f ih =>
    intro ts s o h
    unfold parse_thread at h
    rcases hst : s.stack with _ | ⟨f0, stackRest⟩ <;> rw [hst] at h <;> dsimp only at h
    · rcases hpo : s.parse_options with _ | _ <;> rw [hpo] at h
      · simp only [Bool.false_eq_true, if_false] at h
        rcases hpos : s.positional with _ | ⟨p, ps⟩ <;> rw [hpos] at h
        · exact (parse_thread_success P i (f + 1) ts s hst hpo hpos).trans h
        · exact (parse_thread_step_positional P i (f + 1) ts s p ps hst hpo hpos).trans
            (ih _ _ _ h)
      · simp only [if_true] at h
        rcases hopt : parse_option P i ts s with ⟨ts1, s1, e⟩
        rw [hopt] at h
        rcases e with _ | e0
        · exact (parse_thread_step_option P i (f + 1) ts s ts1 s1 hst hpo hopt).trans
            (ih _ _ _ h)
        · exact (parse_thread_step_option_err P i (f + 1) ts s ts1 s1 e0 hst hpo
            hopt).trans h
    · rcases hpf : parse_frame ts { s with stack := stackRest } f0 with ⟨ts1, s1, e⟩
      rw [hpf] at h
      rcases e with _ | e0
      · exact (parse_thread_step_frame P i (f + 1) ts s f0 stackRest ts1 s1 hst
          hpf).trans (ih _ _ _ h)
      · exact (parse_thread_step_frame_err P i (f + 1) ts s f0 stackRest ts1 s1 e0 hst
          hpf).trans h

theorem parse_thread_le (P : Parser) (i : Bool) (f g : Nat) (ts : List State) (s : State)
    (o : StepOut) (hle : f ≤ g) (h : parse_thread P i f ts s = some o) :
    parse_thread P i g ts s = some o := by
  induction g with
  | zero => rw [← Nat.le_zero.mp hle]; exact h
  | succ g ihg =>
    rcases Nat.lt_or_ge f (g + 1) with hlt | hge
    · exact parse_thread_mono P i g ts s o (ihg (Nat.lt_succ_iff.mp hlt))
    · rw [← Nat.le_antisymm hle hge]; exact h

theorem parse_thread_agree (P : Parser) (i : Bool) (f g : Nat) (ts : List State)
    (s : State) (o o2 : StepOut) (h1 : parse_thread P i f ts s = some o)
    (h2 : parse_thread P i g ts s = some o2) : o = o2 := by
  rcases Nat.le_total f g with hle | hle
  · have h3 := parse_thread_le P i f g ts s o hle h1
    rw [h3] at h2
    exact Option.some.inj h2
  · have h3 := parse_thread_le P i g f ts s o2 hle h2
    rw [h3] at h1
    exact (Option.some.inj h1).symm

theorem parse_args_loop_agree (P : Parser) (i : Bool) :
    ∀ (lf1 tf1 tf2 lf2 : Nat) (ts : List State) (b : State) (fst : Bool)
      (r1 r2 : ParseResult),
      parse_args_loop P i tf1 lf1 ts b fst = some r1 →
      parse_args_loop P i tf2 lf2 ts b fst = some r2 → r1 = r2 := by
  intro lf1
  induction lf1 with
  | zero => intro _ _ _ _ _ _ _ _ h1 _; cases h1
  | succ lf1 ih =>
    intro tf1 tf2 lf2 ts b fst r1 r2 h1 h2
    rcases lf2 with _ | lf2
    · cases h2
    · rcases ts with _ | ⟨t, rest⟩
      · unfold parse_args_loop at h1 h2
        rw [← Option.some.inj h1, ← Option.some.inj h2]
      · unfold parse_args_loop at h1 h2
        rcases hp1 : parse_thread P i tf1 rest t with _ | o1 <;> rw [hp1] at h1
        · cases h1
        · rcases hp2 : parse_thread P i tf2 rest t with _ | o2 <;> rw [hp2] at h2
          · cases h2
          · rw [← parse_thread_agree P i tf1 tf2 rest t o1 o2 hp1 hp2] at h2
            rcases o1 with ⟨ts1, s1, e⟩
            rcases e with _ | e0
            · rw [← Option.some.inj h1, ← Option.some.inj h2]
            · rcases e0 with _ | a
              · exact ih tf1 tf2 lf2 ts1 _ false r1 r2 h1 h2
              · rw [← Option.some.inj h1, ← Option.some.inj h2]

/-! ## Claim C4 -/

theorem parse_frame_zero_flag (ts : List State) (s : State) (p : Param) (fl : String)
    (hv : Bool) (hm : p.matches_arg (.optionArg fl none) = true) :
    parse_frame ts s ⟨p, .int 0, some fl, none, hv⟩ =
      (ts, s.capture_arg p (.optionArg fl none), none) := by
  have hd : (NArgs.int 0).decrement = none := rfl
  simp only [parse_frame, parse_frame_go, parse_int_frame, get_int_frame_arg]
  rw [if_pos (by simp)]
  simp only [hm, if_true, hd, push_frame]

theorem parse_frame_one_flag (ts : List State) (s : State) (p : Param) (fl : String)
    (a : String) (rest1 : List String) (hargs : s.args = a :: rest1) :
    parse_frame ts s ⟨p, .int 1, some fl, none, false⟩ =
      (if p.matches_arg (.optionArg fl (some a)) then
        (ts, ({ s with args := rest1 }).capture_arg p (.optionArg fl (some a)), none)
      else (ts, { s with args := rest1 }, some .matchError)) := by
  have hd : (NArgs.int 1).decrement = none := rfl
  simp only [parse_frame, parse_frame_go, parse_int_frame, get_int_frame_arg,
    get_int_frame_arg_pop]
  rw [if_neg (by simp), if_neg (by simp)]
  simp only [Bool.false_eq_true, if_false, hargs]
  by_cases hm : p.matches_arg (.optionArg fl (some a)) = true <;>
    simp only [hm, if_true, Bool.false_eq_true, if_false, hd, push_frame]

theorem parse_option_single_short_int (P : Parser) (i : Bool) (ts : List State)
    (s : State) (c : Char) (p : Param) (k : Nat) (arg : String) (rest : List String)
    (hargs : s.args = arg :: rest) (hdd : arg ≠ "--")
    (hps : partitionEq arg = (arg, none)) (hsa : is_short_arg arg = true)
    (hrev : (arg.data.drop 1).reverse = [c])
    (hlk : lookupFlag P.short_flags (String.mk ['-', c]) = some p)
    (hn : p.nargs = .int k) :
    parse_option P i ts s =
      (ts,
        { s with args := rest,
                 stack := ⟨p, .int k, some (String.mk ['-', c]), none, false⟩ ::
                   s.stack },
        none) := by
  unfold parse_option
  rw [hargs]
  simp only [List.drop_one] at hrev
  simp [hdd, hps, hsa, parse_short, hrev, parse_short_go, hlk, hn, push_frame]

theorem parse_option_xyz (P : Parser) (i : Bool) (ts : List State) (s : State)
    (rest : List String) (px py pz : Param)
    (hargs : s.args = "-xyz" :: rest)
    (hx : lookupFlag P.short_flags (String.mk ['-', 'x']) = some px)
    (hnx : px.nargs = .int 0)
    (hy : lookupFlag P.short_flags (String.mk ['-', 'y']) = some py)
    (hny : py.nargs = .int 0)
    (hz : lookupFlag P.short_flags (String.mk ['-', 'z']) = some pz)
    (hnz : pz.nargs = .int 1) :
    parse_option P i ts s =
      (ts,
        { s with args := rest,
                 stack := ⟨px, .int 0, some (String.mk ['-', 'x']), none, true⟩ ::
                   ⟨py, .int 0, some (String.mk ['-', 'y']), none, true⟩ ::
                   ⟨pz, .int 1, some (String.mk ['-', 'z']), none, false⟩ ::
                   s.stack },
        none) := by
  unfold parse_option
  rw [hargs]
  have hdd : ("-xyz" : String) ≠ "--" := by decide
  have hps : partitionEq "-xyz" = ("-xyz", none) := rfl
  have hsa : is_short_arg "-xyz" = true := rfl
  have hrev : ("-xyz" : String).data.tail.reverse = ['z', 'y', 'x'] := rfl
  simp [hdd, hps, hsa, parse_short, hrev, parse_short_go, hz, hnz, hy, hny, hx, hnx,
    push_frame]

theorem cluster_sync (P : Parser) (i : Bool) (t : String) (r : List String)
    (px py pz : Param)
    (hx : lookupFlag P.short_flags "-x" = some px) (hnx : px.nargs = .int 0)
    (hmx : px.matches_arg (.optionArg "-x" none) = true)
    (hy : lookupFlag P.short_flags "-y" = some py) (hny : py.nargs = .int 0)
    (hmy : py.matches_arg (.optionArg "-y" none) = true)
    (hz : lookupFlag P.short_flags "-z" = some pz) (hnz : pz.nargs = .int 1)
    (g : Nat) (ts : List State) (pos : List Param) (un : List String)
    (cap : List (Param × ParameterArg)) :
    parse_thread P i (g + 4) ts ⟨"-xyz" :: t :: r, pos, true, un, cap, []⟩ =
      parse_thread P i (g + 6) ts
        ⟨"-x" :: "-y" :: "-z" :: t :: r, pos, true, un, cap, []⟩ := by
  have hx2 : lookupFlag P.short_flags (String.mk ['-', 'x']) = some px := hx
  have hy2 : lookupFlag P.short_flags (String.mk ['-', 'y']) = some py := hy
  have hz2 : lookupFlag P.short_flags (String.mk ['-', 'z']) = some pz := hz
  have eA1 : parse_thread P i (g + 4) ts ⟨"-xyz" :: t :: r, pos, true, un, cap, []⟩ =
      parse_thread P i (g + 3) ts
        ⟨t :: r, pos, true, un, cap,
          [⟨px, .int 0, some "-x", none, true⟩, ⟨py, .int 0, some "-y", none, true⟩,
            ⟨pz, .int 1, some "-z", none, false⟩]⟩ :=
    parse_thread_step_option P i (g + 3) ts _ ts _ rfl rfl
      (parse_option_xyz P i ts _ (t :: r) px py pz rfl hx2 hnx hy2 hny hz2 hnz)
  have eA2 : parse_thread P i (g + 3) ts
      ⟨t :: r, pos, true, un, cap,
        [⟨px, .int 0, some "-x", none, true⟩, ⟨py, .int 0, some "-y", none, true⟩,
          ⟨pz, .int 1, some "-z", none, false⟩]⟩ =
      parse_thread P i (g + 2) ts
        ⟨t :: r, pos, true, un, (px, .optionArg "-x" none) :: cap,
          [⟨py, .int 0, some "-y", none, true⟩,
            ⟨pz, .int 1, some "-z", none, false⟩]⟩ :=
    parse_thread_step_frame P i (g + 2) ts _ _ _ ts _ rfl
      (parse_frame_zero_flag ts _ px "-x" true hmx)
  have eA3 : parse_thread P i (g + 2) ts
      ⟨t :: r, pos, true, un, (px, .optionArg "-x" none) :: cap,
        [⟨py, .int 0, some "-y", none, true⟩,
          ⟨pz, .int 1, some "-z", none, false⟩]⟩ =
      parse_thread P i (g + 1) ts
        ⟨t :: r, pos, true, un,
          (py, .optionArg "-y" none) :: (px, .optionArg "-x" none) :: cap,
          [⟨pz, .int 1, some "-z", none, false⟩]⟩ :=
    parse_thread_step_frame P i (g + 1) ts _ _ _ ts _ rfl
      (parse_frame_zero_flag ts _ py "-y" true hmy)
  have eB1 : parse_thread P i (g + 6) ts
      ⟨"-x" :: "-y" :: "-z" :: t :: r, pos, true, un, cap, []⟩ =
      parse_thread P i (g + 5) ts
        ⟨"-y" :: "-z" :: t :: r, pos, true, un, cap,
          [⟨px, .int 0, some "-x", none, false⟩]⟩ :=
    parse_thread_step_option P i (g + 5) ts _ ts _ rfl rfl
      (parse_option_single_short_int P i ts _ 'x' px 0 "-x" ("-y" :: "-z" :: t :: r)
        rfl (by decide) rfl rfl rfl hx2 hnx)
  have eB2 : parse_thread P i (g + 5) ts
      ⟨"-y" :: "-z" :: t :: r, pos, true, un, cap,
        [⟨px, .int 0, some "-x", none, false⟩]⟩ =
      parse_thread P i (g + 4) ts
        ⟨"-y" :: "-z" :: t :: r, pos, true, un, (px, .optionArg "-x" none) :: cap, []⟩ :=
    parse_thread_step_frame P i (g + 4) ts _ _ _ ts _ rfl
      (parse_frame_zero_flag ts _ px "-x" false hmx)
  have eB3 : parse_thread P i (g + 4) ts
      ⟨"-y" :: "-z" :: t :: r, pos, true, un, (px, .optionArg "-x" none) :: cap, []⟩ =
      parse_thread P i (g + 3) ts
        ⟨"-z" :: t :: r, pos, true, un, (px, .optionArg "-x" none) :: cap,
          [⟨py, .int 0, some "-y", none, false⟩]⟩ :=
    parse_thread_step_option P i (g + 3) ts _ ts _ rfl rfl
      (parse_option_single_short_int P i ts _ 'y' py 0 "-y" ("-z" :: t :: r)
        rfl (by decide) rfl rfl rfl hy2 hny)
  have eB4 : parse_thread P i (g + 3) ts
      ⟨"-z" :: t :: r, pos, true, un, (px, .optionArg "-x" none) :: cap,
        [⟨py, .int 0, some "-y", none, false⟩]⟩ =
      parse_thread P i (g + 2) ts
        ⟨"-z" :: t :: r, pos, true, un,
          (py, .optionArg "-y" none) :: (px, .optionArg "-x" none) :: cap, []⟩ :=
    parse_thread_step_frame P i (g + 2) ts _ _ _ ts _ rfl
      (parse_frame_zero_flag ts _ py "-y" false hmy)
  have eB5 : parse_thread P i (g + 2) ts
      ⟨"-z" :: t :: r, pos, true, un,
        (py, .optionArg "-y" none) :: (px, .optionArg "-x" none) :: cap, []⟩ =
      parse_thread P i (g + 1) ts
        ⟨t :: r, pos, true, un,
          (py, .optionArg "-y" none) :: (px, .optionArg "-x" none) :: cap,
          [⟨pz, .int 1, some "-z", none, false⟩]⟩ :=
    parse_thread_step_option P i (g + 1) ts _ ts _ rfl rfl
      (parse_option_single_short_int P i ts _ 'z' pz 1 "-z" (t :: r)
        rfl (by decide) rfl rfl rfl hz2 hnz)
  by_cases hm : pz.matches_arg (.optionArg "-z" (some t)) = true
  · have eAz : parse_thread P i (g + 1) ts
        ⟨t :: r, pos, true, un,
          (py, .optionArg "-y" none) :: (px, .optionArg "-x" none) :: cap,
          [⟨pz, .int 1, some "-z", none, false⟩]⟩ =
        parse_thread P i g ts
          ⟨r, pos, true, un,
            (pz, .optionArg "-z" (some t)) :: (py, .optionArg "-y" none) ::
              (px, .optionArg "-x" none) :: cap, []⟩ :=
      parse_thread_step_frame P i g ts _ _ _ ts _ rfl
        ((parse_frame_one_flag ts _ pz "-z" t r rfl).trans (if_pos hm))
    rw [eA1, eA2, eA3, eAz, eB1, eB2, eB3, eB4, eB5, eAz]
  · have hmf : pz.matches_arg (.optionArg "-z" (some t)) = false :=
      eq_false_of_ne_true hm
    have eAz : parse_thread P i (g + 1) ts
        ⟨t :: r, pos, true, un,
          (py, .optionArg "-y" none) :: (px, .optionArg "-x" none) :: cap,
          [⟨pz, .int 1, some "-z", none, false⟩]⟩ =
        some ⟨ts,
          ⟨r, pos, true, un,
            (py, .optionArg "-y" none) :: (px, .optionArg "-x" none) :: cap, []⟩,
          some .matchError⟩ :=
      parse_thread_step_frame_err P i g ts _ _ _ ts _ .matchError rfl
        ((parse_frame_one_flag ts _ pz "-z" t r rfl).trans (if_neg (by simp [hmf])))
    rw [eA1, eA2, eA3, eAz, eB1, eB2, eB3, eB4, eB5, eAz]

/-- **C4**: for every grammar in which `-x` and `-y` take zero values and
`-z` takes one value, parsing `["-xyz", t]` and parsing
`["-x", "-y", "-z", t]` yield the same result — captured occurrences per
descriptor and leftover alike — for any interspersed and strict-mode
settings, at any fuels at which the two runs return. The two
probe-acceptance hypotheses `hmx`/`hmy` are satisfied by every
flag-registered descriptor the library can construct: options inherit
`ParserParameter.matches` (parameter/parser.py), which returns `True`
unconditionally (only positional `ArgumentParameter`s delegate to the
type's probe), so they impose no restriction beyond the claim's own
premises; they appear only because the shallow `Param` model carries the
probe field that positionals genuinely need. -/
theorem claimC4_cluster_equivalence (P : Parser) (i raiseU : Bool) (t : String)
    (px py pz : Param)
    (hx : lookupFlag P.short_flags "-x" = some px) (hnx : px.nargs = .int 0)
    (hmx : px.matches_arg (.optionArg "-x" none) = true)
    (hy : lookupFlag P.short_flags "-y" = some py) (hny : py.nargs = .int 0)
    (hmy : py.matches_arg (.optionArg "-y" none) = true)
    (hz : lookupFlag P.short_flags "-z" = some pz) (hnz : pz.nargs = .int 1)
    (tf1 lf1 tf2 lf2 : Nat) (r1 r2 : Except UnexpectedErr ParseOutput) :
    parse_args P i raiseU tf1 lf1 ["-xyz", t] = some r1 →
    parse_args P i raiseU tf2 lf2 ["-x", "-y", "-z", t] = some r2 → r1 = r2 := by
  intro h1 h2
  unfold parse_args at h1 h2
  rcases hr1 : run_parse P i tf1 lf1 ["-xyz", t] with _ | pr1 <;> rw [hr1] at h1
  · cases h1
  rcases hr2 : run_parse P i tf2 lf2 ["-x", "-y", "-z", t] with _ | pr2 <;>
    rw [hr2] at h2
  · cases h2
  have hpr : pr1 = pr2 := by
    unfold run_parse at hr1 hr2
    rcases lf1 with _ | lf1
    · cases hr1
    rcases lf2 with _ | lf2
    · cases hr2
    unfold parse_args_loop at hr1 hr2
    rcases hp1 : parse_thread P i tf1 []
        ⟨["-xyz", t], P.positional, true, [], [], []⟩ with _ | o1 <;> rw [hp1] at hr1
    · cases hr1
    rcases hp2 : parse_thread P i tf2 []
        ⟨["-x", "-y", "-z", t], P.positional, true, [], [], []⟩ with _ | o2 <;>
      rw [hp2] at hr2
    · cases hr2
    have ho : o1 = o2 := by
      have m1 := parse_thread_le P i tf1 (tf1 + 4) []
        ⟨["-xyz", t], P.positional, true, [], [], []⟩ o1 (Nat.le_add_right tf1 4) hp1
      have m2 := parse_thread_le P i tf2 (tf2 + 6) []
        ⟨["-x", "-y", "-z", t], P.positional, true, [], [], []⟩ o2
        (Nat.le_add_right tf2 6) hp2
      have hs := cluster_sync P i t [] px py pz hx hnx hmx hy hny hmy hz hnz tf1 []
        P.positional [] []
      rw [m1] at hs
      exact parse_thread_agree P i (tf1 + 6) (tf2 + 6) []
        ⟨["-x", "-y", "-z", t], P.positional, true, [], [], []⟩ o1 o2 hs.symm m2
    rw [← ho] at hr2
    rcases o1 with ⟨ts1, s1v, e⟩
    rcases e with _ | e0
    · rw [← Option.some.inj hr1, ← Option.some.inj hr2]
    · rcases e0 with _ | a
      · exact parse_args_loop_agree P i lf1 tf1 tf2 lf2 ts1 _ false pr1 pr2 hr1 hr2
      · rw [← Option.some.inj hr1, ← Option.some.inj hr2]
  rw [← hpr] at h2
  rw [h1] at h2
  exact Option.some.inj h2

/-- A zero-arity boolean flag descriptor for `-x`. -/
def xFlagParam : Param := ⟨1, .int 0, flagProbe, "X"⟩

/-- A zero-arity boolean flag descriptor for `-y`. -/
def yFlagParam : Param := ⟨2, .int 0, flagProbe, "Y"⟩

/-- A one-value string option descriptor for `-z`. -/
def zStrParam : Param := ⟨3, .int 1, strProbe, "Z"⟩

/-- The concrete C4 grammar. -/
def c4Parser : Parser :=
  ⟨[("-x", xFlagParam), ("-y", yFlagParam), ("-z", zStrParam)], [], []⟩

/-- Witness for C4: on the concrete grammar the two concrete runs of
`-xyz t` and `-x -y -z t` produce the same output (both capture x, y,
and z with value t), derived by applying the equivalence theorem at
concrete fuels with both runs evaluated. -/
theorem claimC4_witness :
    (Except.ok (⟨[(3, [.optionArg "-z" (some "t")]), (2, [.optionArg "-y" none]),
        (1, [.optionArg "-x" none])], []⟩ : ParseOutput) :
      Except UnexpectedErr ParseOutput) =
      Except.ok ⟨[(3, [.optionArg "-z" (some "t")]), (2, [.optionArg "-y" none]),
        (1, [.optionArg "-x" none])], []⟩ :=
  claimC4_cluster_equivalence c4Parser true false "t" xFlagParam yFlagParam zStrParam
    rfl rfl rfl rfl rfl rfl rfl rfl 30 15 30 15 _ _ (by rfl) (by rfl)

/-! ## Claim C3 -/

theorem parse_args_loop_step_err (P : Parser) (i : Bool) (tf lf : Nat)
    (ts0 ts1 : List State) (t s1 b : State) (fst : Bool)
    (h : parse_thread P i tf ts0 t = some ⟨ts1, s1, some .matchError⟩) :
    parse_args_loop P i tf (lf + 1) (t :: ts0) b fst =
      parse_args_loop P i tf lf ts1
        (if fst then s1 else if lossLt s1.loss b.loss then s1 else b) false := by
  conv_lhs => unfold parse_args_loop
  simp only [h]

theorem parse_args_loop_step_success (P : Parser) (i : Bool) (tf lf : Nat)
    (ts0 ts1 : List State) (t s1 b : State) (fst : Bool)
    (h : parse_thread P i tf ts0 t = some ⟨ts1, s1, none⟩) :
    parse_args_loop P i tf (lf + 1) (t :: ts0) b fst = some (.success s1) := by
  conv_lhs => unfold parse_args_loop
  simp only [h]

theorem resetUnusedGo_eq (us : List String) :
    ∀ args : List String, resetUnusedGo us args = us.reverse ++ args := by
  induction us with
  | nil => intro args; simp [resetUnusedGo]
  | cons u us ih =>
    intro args
    simp only [resetUnusedGo, ih, List.reverse_cons, List.append_assoc,
      List.singleton_append]

/-- The capture log extended by a run of positional captures for one
descriptor, newest first (each capture conses onto the log). -/
def capP (p : Param) (l : List String) (cap : List (Param × ParameterArg)) :
    List (Param × ParameterArg) :=
  l.foldl (fun c t => (p, ParameterArg.positionalArg t) :: c) cap

theorem capP_eq (p : Param) :
    ∀ (l : List String) (cap : List (Param × ParameterArg)),
      capP p l cap = (l.map (fun t => (p, ParameterArg.positionalArg t))).reverse ++ cap := by
  intro l
  induction l with
  | nil => intro cap; simp [capP]
  | cons t l ih =>
    intro cap
    simp only [capP, List.foldl_cons, List.map_cons, List.reverse_cons,
      List.append_assoc, List.singleton_append]
    exact ih ((p, ParameterArg.positionalArg t) :: cap)

/-- The "stop now" fork of the C3 run after the greedy positional has
consumed some prefix: the remaining tokens, the fixed-arity positional
still pending, flag parsing over, no open frame. -/
def c3Stop (k : Nat) (l : List String) (cap : List (Param × ParameterArg)) : State :=
  ⟨l, [intPos 2 k], false, [], cap, []⟩

/-- The stop-forks pushed while the greedy positional consumes the list
`l`, newest (deepest consumption, fewest remaining tokens) first. -/
def c3Stops (k : Nat) : List String → List (Param × ParameterArg) → List State
  | [], _ => []
  | t :: r, cap =>
    c3Stops k r ((starPos 1, ParameterArg.positionalArg t) :: cap) ++
      [c3Stop k r ((starPos 1, ParameterArg.positionalArg t) :: cap)]

theorem parse_option_positional (P : Parser) (ts : List State) (s : State)
    (t : String) (rest : List String)
    (hargs : s.args = t :: rest) (hdd : t ≠ "--")
    (hpt : is_positional_arg (partitionEq t).1 = true) :
    parse_option P true ts s =
      (ts, { s with args := rest, unused_args := t :: s.unused_args }, none) := by
  have hor := (Bool.not_eq_true' _).mp hpt
  have hsa : is_short_arg (partitionEq t).1 = false :=
    (Bool.or_eq_false_iff.mp hor).1
  have hla : is_long_arg (partitionEq t).1 = false :=
    (Bool.or_eq_false_iff.mp hor).2
  unfold parse_option
  rw [hargs]
  simp only [hdd, if_false, hsa, Bool.false_eq_true, hla, if_true]

theorem parse_frame_star (ts : List State) (s : State) (a : String)
    (rest1 : List String) (hargs : s.args = a :: rest1) :
    parse_frame ts s ⟨starPos 1, starNArgs, none, none, false⟩ =
      (({ s with args := rest1 }).capture_arg (starPos 1) (.positionalArg a) :: ts,
        { ({ s with args := rest1 }).capture_arg (starPos 1) (.positionalArg a) with
          stack := ⟨starPos 1, starNArgs, none, none, false⟩ :: s.stack },
        none) := by
  have hd1 : (NArgs.int 1).decrement = none := rfl
  have hds : starNArgs.decrement = some starNArgs := rfl
  have hma : (starPos 1).matches_arg (.positionalArg a) = true := rfl
  simp only [starNArgs, parse_frame, parse_frame_go, parse_int_frame,
    get_int_frame_arg, get_int_frame_arg_pop, Bool.false_eq_true, if_false, hargs,
    hma, if_true, hd1, push_frame]
  rw [show (NArgs.variadic (NArgs.int 1) 0 none true).decrement =
    some (NArgs.variadic (NArgs.int 1) 0 none true) from rfl]
  rfl

theorem parse_frame_star_nil (ts : List State) (s : State) (hargs : s.args = []) :
    parse_frame ts s ⟨starPos 1, starNArgs, none, none, false⟩ =
      (ts, s, some .matchError) := by
  simp only [starNArgs, parse_frame, parse_frame_go, parse_int_frame,
    get_int_frame_arg, get_int_frame_arg_pop, Bool.false_eq_true, if_false, hargs]

theorem parse_frame_int_one (ts : List State) (s : State) (p : Param) (a : String)
    (rest1 : List String) (hargs : s.args = a :: rest1)
    (hma : p.matches_arg (.positionalArg a) = true) :
    parse_frame ts s ⟨p, .int 1, none, none, false⟩ =
      (ts, ({ s with args := rest1 }).capture_arg p (.positionalArg a), none) := by
  have hd1 : (NArgs.int 1).decrement = none := rfl
  simp only [parse_frame, parse_frame_go, parse_int_frame, get_int_frame_arg,
    get_int_frame_arg_pop, Bool.false_eq_true, if_false, hargs, hma, if_true, hd1,
    push_frame]

theorem parse_frame_int_succ (ts : List State) (s : State) (p : Param) (m : Nat)
    (a : String) (rest1 : List String) (hargs : s.args = a :: rest1)
    (hma : p.matches_arg (.positionalArg a) = true) :
    parse_frame ts s ⟨p, .int (m + 2), none, none, false⟩ =
      (ts,
        { ({ s with args := rest1 }).capture_arg p (.positionalArg a) with
          stack := ⟨p, .int (m + 1), none, none, false⟩ :: s.stack },
        none) := by
  have hd : (NArgs.int (m + 2)).decrement = some (.int (m + 1)) := by
    simp [NArgs.decrement]
  simp only [parse_frame, parse_frame_go, parse_int_frame, get_int_frame_arg,
    get_int_frame_arg_pop, Bool.false_eq_true, if_false, hargs, hma, if_true, hd,
    push_frame]
  rfl

theorem parse_frame_int_nil (ts : List State) (s : State) (p : Param) (m : Nat)
    (hargs : s.args = []) :
    parse_frame ts s ⟨p, .int m, none, none, false⟩ = (ts, s, some .matchError) := by
  simp only [parse_frame, parse_frame_go, parse_int_frame, get_int_frame_arg,
    get_int_frame_arg_pop, Bool.false_eq_true, if_false, hargs]

theorem c3_scan (P : Parser) :
    ∀ (l : List String) (f : Nat) (ts : List State) (pos : List Param)
      (un : List String) (cap : List (Param × ParameterArg)),
      (∀ t ∈ l, t ≠ "--" ∧ is_positional_arg (partitionEq t).1 = true) →
      parse_thread P true (f + (l.length + 1)) ts ⟨l, pos, true, un, cap, []⟩ =
        parse_thread P true f ts ⟨[], pos, false, l.reverse ++ un, cap, []⟩ := by
  intro l
  induction l with
  | nil =>
    intro f ts pos un cap _
    exact parse_thread_step_option P true f ts ⟨[], pos, true, un, cap, []⟩
      ts ⟨[], pos, false, un, cap, []⟩ rfl rfl rfl
  | cons t l ih =>
    intro f ts pos un cap htok
    have ht := htok t (List.mem_cons_self t l)
    have h0 : parse_option P true ts ⟨t :: l, pos, true, un, cap, []⟩ =
        (ts, ⟨l, pos, true, t :: un, cap, []⟩, none) :=
      parse_option_positional P ts ⟨t :: l, pos, true, un, cap, []⟩ t l rfl ht.1 ht.2
    rw [show f + ((t :: l).length + 1) = (f + (l.length + 1)) + 1 from rfl]
    rw [parse_thread_step_option P true (f + (l.length + 1)) ts
      ⟨t :: l, pos, true, un, cap, []⟩ ts ⟨l, pos, true, t :: un, cap, []⟩ rfl rfl h0]
    rw [ih f ts pos (t :: un) cap (fun x hx2 => htok x (List.mem_cons_of_mem t hx2))]
    rw [List.reverse_cons, List.append_assoc, List.singleton_append]

theorem c3_consume (k : Nat) (P : Parser) :
    ∀ (l : List String) (f : Nat) (ts : List State)
      (cap : List (Param × ParameterArg)),
      parse_thread P true (f + (l.length + 1)) ts
          ⟨l, [intPos 2 k], false, [], cap,
            [⟨starPos 1, starNArgs, none, none, false⟩]⟩ =
        some ⟨c3Stops k l cap ++ ts,
          ⟨[], [intPos 2 k], false, [], capP (starPos 1) l cap, []⟩,
          some .matchError⟩ := by
  intro l
  induction l with
  | nil =>
    intro f ts cap
    exact parse_thread_step_frame_err P true f ts
      ⟨[], [intPos 2 k], false, [], cap, [⟨starPos 1, starNArgs, none, none, false⟩]⟩
      ⟨starPos 1, starNArgs, none, none, false⟩ [] ts
      ⟨[], [intPos 2 k], false, [], cap, []⟩ .matchError rfl
      (parse_frame_star_nil ts ⟨[], [intPos 2 k], false, [], cap, []⟩ rfl)
  | cons t r ih =>
    intro f ts cap
    have hfr := parse_frame_star ts ⟨t :: r, [intPos 2 k], false, [], cap, []⟩ t r rfl
    rw [show f + ((t :: r).length + 1) = (f + (r.length + 1)) + 1 from rfl]
    rw [parse_thread_step_frame P true (f + (r.length + 1)) ts
      ⟨t :: r, [intPos 2 k], false, [], cap,
        [⟨starPos 1, starNArgs, none, none, false⟩]⟩
      ⟨starPos 1, starNArgs, none, none, false⟩ []
      (c3Stop k r ((starPos 1, ParameterArg.positionalArg t) :: cap) :: ts)
      ⟨r, [intPos 2 k], false, [], (starPos 1, ParameterArg.positionalArg t) :: cap,
        [⟨starPos 1, starNArgs, none, none, false⟩]⟩ rfl hfr]
    rw [ih f (c3Stop k r ((starPos 1, ParameterArg.positionalArg t) :: cap) :: ts)
      ((starPos 1, ParameterArg.positionalArg t) :: cap)]
    simp only [c3Stops, List.append_assoc, List.singleton_append]
    rfl

theorem c3_b_succeed (k : Nat) (P : Parser) :
    ∀ (m2 : Nat) (l : List String) (f : Nat) (ts : List State)
      (cap : List (Param × ParameterArg)),
      m2 + 1 ≤ l.length →
      parse_thread P true (f + (m2 + 2)) ts
          ⟨l, [], false, [], cap, [⟨intPos 2 k, .int (m2 + 1), none, none, false⟩]⟩ =
        some ⟨ts, ⟨l.drop (m2 + 1), [], false, [],
          capP (intPos 2 k) (l.take (m2 + 1)) cap, []⟩, none⟩ := by
  intro m2
  induction m2 with
  | zero =>
    intro l f ts cap hlen
    rcases l with _ | ⟨a, rest⟩
    · cases hlen
    · rw [show f + (0 + 2) = (f + 1) + 1 from rfl]
      rw [parse_thread_step_frame P true (f + 1) ts
        ⟨a :: rest, [], false, [], cap, [⟨intPos 2 k, .int 1, none, none, false⟩]⟩
        ⟨intPos 2 k, .int 1, none, none, false⟩ [] ts
        ⟨rest, [], false, [], (intPos 2 k, ParameterArg.positionalArg a) :: cap, []⟩
        rfl
        (parse_frame_int_one ts ⟨a :: rest, [], false, [], cap, []⟩ (intPos 2 k)
          a rest rfl rfl)]
      exact parse_thread_success P true f ts
        ⟨rest, [], false, [], (intPos 2 k, ParameterArg.positionalArg a) :: cap, []⟩
        rfl rfl rfl
  | succ m2 ih =>
    intro l f ts cap hlen
    rcases l with _ | ⟨a, rest⟩
    · cases hlen
    · rw [show f + (m2 + 1 + 2) = (f + (m2 + 2)) + 1 from rfl]
      rw [parse_thread_step_frame P true (f + (m2 + 2)) ts
        ⟨a :: rest, [], false, [], cap,
          [⟨intPos 2 k, .int (m2 + 2), none, none, false⟩]⟩
        ⟨intPos 2 k, .int (m2 + 2), none, none, false⟩ [] ts
        ⟨rest, [], false, [], (intPos 2 k, ParameterArg.positionalArg a) :: cap,
          [⟨intPos 2 k, .int (m2 + 1), none, none, false⟩]⟩ rfl
        (parse_frame_int_succ ts ⟨a :: rest, [], false, [], cap, []⟩ (intPos 2 k)
          m2 a rest rfl rfl)]
      exact ih rest f ts ((intPos 2 k, ParameterArg.positionalArg a) :: cap)
        (Nat.lt_succ_iff.mp (Nat.succ_lt_succ_iff.mp (Nat.lt_of_lt_of_le
          (Nat.lt_succ_self _) (by simpa using hlen))))

theorem c3_b_fail (k : Nat) (P : Parser) :
    ∀ (l : List String) (m : Nat) (f : Nat) (ts : List State)
      (cap : List (Param × ParameterArg)),
      l.length < m →
      parse_thread P true (f + (l.length + 1)) ts
          ⟨l, [], false, [], cap, [⟨intPos 2 k, .int m, none, none, false⟩]⟩ =
        some ⟨ts, ⟨[], [], false, [], capP (intPos 2 k) l cap, []⟩,
          some .matchError⟩ := by
  intro l
  induction l with
  | nil =>
    intro m f ts cap _
    exact parse_thread_step_frame_err P true f ts
      ⟨[], [], false, [], cap, [⟨intPos 2 k, .int m, none, none, false⟩]⟩
      ⟨intPos 2 k, .int m, none, none, false⟩ [] ts
      ⟨[], [], false, [], cap, []⟩ .matchError rfl
      (parse_frame_int_nil ts ⟨[], [], false, [], cap, []⟩ (intPos 2 k) m rfl)
  | cons a rest ih =>
    intro m f ts cap hlen
    rcases m with _ | _ | m2
    · cases hlen
    · exact absurd hlen (by simp)
    · rw [show f + ((a :: rest).length + 1) = (f + (rest.length + 1)) + 1 from rfl]
      rw [parse_thread_step_frame P true (f + (rest.length + 1)) ts
        ⟨a :: rest, [], false, [], cap,
          [⟨intPos 2 k, .int (m2 + 2), none, none, false⟩]⟩
        ⟨intPos 2 k, .int (m2 + 2), none, none, false⟩ [] ts
        ⟨rest, [], false, [], (intPos 2 k, ParameterArg.positionalArg a) :: cap,
          [⟨intPos 2 k, .int (m2 + 1), none, none, false⟩]⟩ rfl
        (parse_frame_int_succ ts ⟨a :: rest, [], false, [], cap, []⟩ (intPos 2 k)
          m2 a rest rfl rfl)]
      exact ih (m2 + 1) f ts ((intPos 2 k, ParameterArg.positionalArg a) :: cap)
        (by simpa using hlen)

theorem c3_stop_fail (k : Nat) (P : Parser) (l2 : List String)
    (cap2 : List (Param × ParameterArg)) (f : Nat) (ts : List State)
    (hlen : l2.length < k) :
    parse_thread P true (f + (l2.length + 2)) ts (c3Stop k l2 cap2) =
      some ⟨ts, ⟨[], [], false, [], capP (intPos 2 k) l2 cap2, []⟩,
        some .matchError⟩ := by
  rw [show f + (l2.length + 2) = (f + (l2.length + 1)) + 1 from rfl]
  exact (parse_thread_step_positional P true (f + (l2.length + 1)) ts
    (c3Stop k l2 cap2) (intPos 2 k) [] rfl rfl rfl).trans
    (c3_b_fail k P l2 k f ts cap2 hlen)

theorem c3_stop_succeed (k : Nat) (P : Parser) (l2 : List String)
    (cap2 : List (Param × ParameterArg)) (f : Nat) (ts : List State)
    (hk : 1 ≤ k) (hlen : l2.length = k) :
    parse_thread P true (f + (k + 2)) ts (c3Stop k l2 cap2) =
      some ⟨ts, ⟨[], [], false, [], capP (intPos 2 k) l2 cap2, []⟩, none⟩ := by
  obtain ⟨m2, rfl⟩ : ∃ m2, k = m2 + 1 := ⟨k - 1, by omega⟩
  rw [show f + (m2 + 1 + 2) = (f + (m2 + 2)) + 1 from rfl]
  have hb := c3_b_succeed (m2 + 1) P m2 l2 f ts cap2 (le_of_eq hlen.symm)
  have hd : l2.drop (m2 + 1) = [] := by rw [← hlen]; exact List.drop_length l2
  have ht : l2.take (m2 + 1) = l2 := by rw [← hlen]; exact List.take_length l2
  rw [hd, ht] at hb
  exact (parse_thread_step_positional P true (f + (m2 + 2)) ts
    (c3Stop (m2 + 1) l2 cap2) (intPos 2 (m2 + 1)) [] rfl rfl rfl).trans hb

theorem c3_loop_fails (k : Nat) (P : Parser) (tf : Nat) :
    ∀ (l : List String) (cap : List (Param × ParameterArg)) (rest : List State)
      (b : State) (lf : Nat),
      l.length ≤ k → l.length + 2 ≤ tf →
      ∃ b2, parse_args_loop P true tf (lf + l.length) (c3Stops k l cap ++ rest) b
          false =
        parse_args_loop P true tf lf rest b2 false := by
  intro l
  induction l with
  | nil => intro cap rest b lf _ _; exact ⟨b, rfl⟩
  | cons t r ih =>
    intro cap rest b lf hlen htf
    obtain ⟨b2, hb2⟩ := ih ((starPos 1, ParameterArg.positionalArg t) :: cap)
      (c3Stop k r ((starPos 1, ParameterArg.positionalArg t) :: cap) :: rest) b
      (lf + 1) (by simp at hlen; omega) (by simp at htf; omega)
    have hth : parse_thread P true tf rest
        (c3Stop k r ((starPos 1, ParameterArg.positionalArg t) :: cap)) =
        some ⟨rest, ⟨[], [], false, [],
          capP (intPos 2 k) r ((starPos 1, ParameterArg.positionalArg t) :: cap), []⟩,
          some .matchError⟩ := by
      rw [show tf = (tf - (r.length + 2)) + (r.length + 2) by simp at htf; omega]
      exact c3_stop_fail k P r ((starPos 1, ParameterArg.positionalArg t) :: cap)
        (tf - (r.length + 2)) rest (by simp at hlen; omega)
    have hstep := parse_args_loop_step_err P true tf lf rest rest
      (c3Stop k r ((starPos 1, ParameterArg.positionalArg t) :: cap))
      ⟨[], [], false, [],
        capP (intPos 2 k) r ((starPos 1, ParameterArg.positionalArg t) :: cap), []⟩
      b2 false hth
    refine ⟨if lossLt (State.loss ⟨[], [], false, [],
      capP (intPos 2 k) r ((starPos 1, ParameterArg.positionalArg t) :: cap), []⟩)
        b2.loss
      then ⟨[], [], false, [],
        capP (intPos 2 k) r ((starPos 1, ParameterArg.positionalArg t) :: cap), []⟩
      else b2, ?_⟩
    rw [show c3Stops k (t :: r) cap =
      c3Stops k r ((starPos 1, ParameterArg.positionalArg t) :: cap) ++
        [c3Stop k r ((starPos 1, ParameterArg.positionalArg t) :: cap)] from rfl]
    rw [List.append_assoc, List.singleton_append]
    rw [show lf + (t :: r).length = (lf + 1) + r.length by simp; omega]
    rw [hb2]
    exact hstep

theorem c3_loop_succeeds (k : Nat) (P : Parser) (tf : Nat) (hk : 1 ≤ k) :
    ∀ (zs ys : List String) (cap : List (Param × ParameterArg)) (rest : List State)
      (b : State) (lf : Nat),
      ys.length = k → (zs ++ ys).length + 3 ≤ tf →
      parse_args_loop P true tf (lf + ((zs ++ ys).length + 1))
          ((c3Stops k (zs ++ ys) cap ++ [c3Stop k (zs ++ ys) cap]) ++ rest) b false =
        some (.success ⟨[], [], false, [],
          capP (intPos 2 k) ys (capP (starPos 1) zs cap), []⟩) := by
  intro zs
  induction zs with
  | nil =>
    intro ys cap rest b lf hys htf
    simp only [List.nil_append] at htf ⊢
    obtain ⟨b2, hb2⟩ := c3_loop_fails k P tf ys cap (c3Stop k ys cap :: rest) b
      (lf + 1) (le_of_eq hys) (by omega)
    rw [List.append_assoc, List.singleton_append]
    rw [show lf + (ys.length + 1) = (lf + 1) + ys.length by omega]
    rw [hb2]
    have hth : parse_thread P true tf rest (c3Stop k ys cap) =
        some ⟨rest, ⟨[], [], false, [], capP (intPos 2 k) ys cap, []⟩, none⟩ := by
      rw [show tf = (tf - (k + 2)) + (k + 2) by omega]
      exact c3_stop_succeed k P ys cap (tf - (k + 2)) rest hk hys
    exact parse_args_loop_step_success P true tf lf rest rest (c3Stop k ys cap)
      ⟨[], [], false, [], capP (intPos 2 k) ys cap, []⟩ b2 false hth
  | cons z zs ih =>
    intro ys cap rest b lf hys htf
    have hrec := ih ys ((starPos 1, ParameterArg.positionalArg z) :: cap)
      (c3Stop k (z :: (zs ++ ys)) cap :: rest) b (lf + 1) hys
      (by simp at htf ⊢; omega)
    rw [show ((z :: zs : List String) ++ ys) = z :: (zs ++ ys) from rfl]
    rw [show c3Stops k (z :: (zs ++ ys)) cap =
      c3Stops k (zs ++ ys) ((starPos 1, ParameterArg.positionalArg z) :: cap) ++
        [c3Stop k (zs ++ ys) ((starPos 1, ParameterArg.positionalArg z) :: cap)]
      from rfl]
    rw [List.append_assoc
      (c3Stops k (zs ++ ys) ((starPos 1, ParameterArg.positionalArg z) :: cap) ++
        [c3Stop k (zs ++ ys) ((starPos 1, ParameterArg.positionalArg z) :: cap)])
      [c3Stop k (z :: (zs ++ ys)) cap] rest]
    rw [List.singleton_append]
    rw [show lf + ((z :: (zs ++ ys)).length + 1) =
      (lf + 1) + ((zs ++ ys).length + 1) by simp; omega]
    exact hrec

theorem c3_root (k : Nat) (P : Parser) (l : List String) (f : Nat) (ts : List State)
    (htok : ∀ t ∈ l, t ≠ "--" ∧ is_positional_arg (partitionEq t).1 = true) :
    parse_thread P true (f + (2 * l.length + 3)) ts
        ⟨l, [starPos 1, intPos 2 k], true, [], [], []⟩ =
      some ⟨c3Stops k l [] ++ (c3Stop k l [] :: ts),
        ⟨[], [intPos 2 k], false, [], capP (starPos 1) l [], []⟩,
        some .matchError⟩ := by
  rw [show f + (2 * l.length + 3) = (f + (l.length + 2)) + (l.length + 1) by omega]
  rw [c3_scan P l (f + (l.length + 2)) ts [starPos 1, intPos 2 k] [] [] htok]
  rw [show f + (l.length + 2) = (f + (l.length + 1)) + 1 from rfl]
  rw [parse_thread_step_positional P true (f + (l.length + 1)) ts
    ⟨[], [starPos 1, intPos 2 k], false, l.reverse ++ [], [], []⟩
    (starPos 1) [intPos 2 k] rfl rfl rfl]
  have harg : resetUnusedGo (l.reverse ++ []) [] = l := by
    rw [resetUnusedGo_eq]
    simp
  show parse_thread P true (f + (l.length + 1))
      (⟨resetUnusedGo (l.reverse ++ []) [], [intPos 2 k], false, [], [], []⟩ :: ts)
      ⟨resetUnusedGo (l.reverse ++ []) [], [intPos 2 k], false, [], [],
        [⟨starPos 1, starNArgs, none, none, false⟩]⟩ =
    some ⟨c3Stops k l [] ++ (c3Stop k l [] :: ts),
      ⟨[], [intPos 2 k], false, [], capP (starPos 1) l [], []⟩,
      some .matchError⟩
  rw [harg]
  exact c3_consume k P l f (c3Stop k l [] :: ts) []

theorem filter_all_eq (id0 : Nat) :
    ∀ L : List (Param × ParameterArg), (∀ pa ∈ L, pa.1.id = id0) →
      L.filter (fun pa => pa.1.id == id0) = L := by
  intro L
  induction L with
  | nil => intro _; rfl
  | cons pa L ih =>
    intro h
    have h1 : (pa.1.id == id0) = true :=
      beq_iff_eq.mpr (h pa (List.mem_cons_self pa L))
    rw [List.filter_cons, h1, if_pos rfl,
      ih (fun x hx => h x (List.mem_cons_of_mem pa hx))]

theorem filter_none_eq (id0 : Nat) :
    ∀ L : List (Param × ParameterArg), (∀ pa ∈ L, pa.1.id ≠ id0) →
      L.filter (fun pa => pa.1.id == id0) = [] := by
  intro L
  induction L with
  | nil => intro _; rfl
  | cons pa L ih =>
    intro h
    have h1 : (pa.1.id == id0) = false :=
      beq_eq_false_iff_ne.mpr (h pa (List.mem_cons_self pa L))
    rw [List.filter_cons, h1]
    exact ih (fun x hx => h x (List.mem_cons_of_mem pa hx))

theorem combineOpt_map_rev (l : List ParameterArg) :
    (combineOpt none l.reverse).map List.reverse =
      if l = [] then none else some l := by
  rcases l with _ | ⟨v, vs⟩
  · rfl
  · rcases hrev : (v :: vs).reverse with _ | ⟨w, ws⟩
    · simp at hrev
    · rw [if_neg (List.cons_ne_nil v vs)]
      show some ((w :: ws).reverse) = some (v :: vs)
      rw [← hrev, List.reverse_reverse]

theorem c3_lookup_last (k : Nat) (xs ys : List String) :
    listLookup (State.get_captured_args
        ⟨[], [], false, [], capP (intPos 2 k) ys (capP (starPos 1) xs []), []⟩) 2 =
      if ys = [] then none else some (ys.map ParameterArg.positionalArg) := by
  unfold State.get_captured_args
  rw [listLookup_map_reverse, listLookup_foldl_insertAppend]
  have e2 : ((capP (intPos 2 k) ys (capP (starPos 1) xs [])).filter
        (fun pa => pa.1.id == 2)).map (fun pa => pa.2) =
      (ys.map ParameterArg.positionalArg).reverse := by
    rw [capP_eq, capP_eq, List.append_nil, List.filter_append]
    rw [filter_all_eq 2 _ (by
      intro pa hpa
      rw [List.mem_reverse] at hpa
      obtain ⟨t, _, rfl⟩ := List.mem_map.mp hpa
      rfl)]
    rw [filter_none_eq 2 _ (by
      intro pa hpa
      rw [List.mem_reverse] at hpa
      obtain ⟨t, _, rfl⟩ := List.mem_map.mp hpa
      simp [starPos])]
    rw [List.append_nil, List.map_reverse, List.map_map]
    rfl
  rw [e2, show listLookup [] 2 = (none : Option (List ParameterArg)) from rfl,
    combineOpt_map_rev]
  by_cases h : ys = []
  · subst h; simp
  · rw [if_neg (by simpa using h), if_neg h]

theorem c3_lookup_greedy (k : Nat) (xs ys : List String) :
    listLookup (State.get_captured_args
        ⟨[], [], false, [], capP (intPos 2 k) ys (capP (starPos 1) xs []), []⟩) 1 =
      if xs = [] then none else some (xs.map ParameterArg.positionalArg) := by
  unfold State.get_captured_args
  rw [listLookup_map_reverse, listLookup_foldl_insertAppend]
  have e1 : ((capP (intPos 2 k) ys (capP (starPos 1) xs [])).filter
        (fun pa => pa.1.id == 1)).map (fun pa => pa.2) =
      (xs.map ParameterArg.positionalArg).reverse := by
    rw [capP_eq, capP_eq, List.append_nil, List.filter_append]
    rw [filter_none_eq 1 _ (by
      intro pa hpa
      rw [List.mem_reverse] at hpa
      obtain ⟨t, _, rfl⟩ := List.mem_map.mp hpa
      simp [intPos])]
    rw [filter_all_eq 1 _ (by
      intro pa hpa
      rw [List.mem_reverse] at hpa
      obtain ⟨t, _, rfl⟩ := List.mem_map.mp hpa
      rfl)]
    rw [List.nil_append, List.map_reverse, List.map_map]
    rfl
  rw [e1, show listLookup [] 1 = (none : Option (List ParameterArg)) from rfl,
    combineOpt_map_rev]
  by_cases h : xs = []
  · subst h; simp
  · rw [if_neg (by simpa using h), if_neg h]

theorem loop_append_nil (P : Parser) (i : Bool) (tf lf : Nat) (X : List State)
    (s : State) (b : State) (fst : Bool) :
    parse_args_loop P i tf lf (X ++ s :: []) b fst =
      parse_args_loop P i tf lf ((X ++ [s]) ++ []) b fst := by
  rw [List.append_nil]

/-- **C3** (corrected: the reservation property requires k ≥ 1). For the
canonical grammar of a greedy unbounded variadic positional immediately
followed by a fixed-arity-k positional (both accepting every occurrence),
and any input `xs ++ ys` of positional tokens (none equal to `--`, none
flag-shaped) with `ys` of length k ≥ 1, the parse succeeds: the final
state's capture log records exactly `ys` (the last k tokens) for the
fixed-arity positional and `xs` for the greedy one, so the captured-args
mapping assigns the last k tokens to the fixed-arity descriptor (id 2)
and the first n−k to the greedy descriptor (id 1, absent when `xs` is
empty, as a never-captured descriptor gets no entry). At k = 0 the claim
fails (see the counterexample): a fixed-arity-0 positional still consumes
one token, so the last token goes to it rather than to the greedy one. -/
theorem claimC3_greedy_reserves_last (xs ys : List String)
    (hk : 1 ≤ ys.length)
    (htok : ∀ t ∈ xs ++ ys, t ≠ "--" ∧ is_positional_arg (partitionEq t).1 = true) :
    run_parse (c3Parser ys.length) true (2 * (xs ++ ys).length + 3)
        ((xs ++ ys).length + 3) (xs ++ ys) =
      some (.success ⟨[], [], false, [],
        capP (intPos 2 ys.length) ys (capP (starPos 1) xs []), []⟩) ∧
    listLookup (State.get_captured_args
        ⟨[], [], false, [],
          capP (intPos 2 ys.length) ys (capP (starPos 1) xs []), []⟩) 2 =
      some (ys.map ParameterArg.positionalArg) ∧
    listLookup (State.get_captured_args
        ⟨[], [], false, [],
          capP (intPos 2 ys.length) ys (capP (starPos 1) xs []), []⟩) 1 =
      (if xs = [] then none else some (xs.map ParameterArg.positionalArg)) := by
  refine ⟨?_, ?_, c3_lookup_greedy ys.length xs ys⟩
  · have hroot := c3_root ys.length (c3Parser ys.length) (xs ++ ys) 0 [] htok
    rw [show 0 + (2 * (xs ++ ys).length + 3) = 2 * (xs ++ ys).length + 3 by omega]
      at hroot
    show parse_args_loop (c3Parser ys.length) true (2 * (xs ++ ys).length + 3)
        ((xs ++ ys).length + 3)
        [⟨xs ++ ys, [starPos 1, intPos 2 ys.length], true, [], [], []⟩]
        ⟨xs ++ ys, [starPos 1, intPos 2 ys.length], true, [], [], []⟩ true =
      some (.success ⟨[], [], false, [],
        capP (intPos 2 ys.length) ys (capP (starPos 1) xs []), []⟩)
    rw [show (xs ++ ys).length + 3 = ((xs ++ ys).length + 2) + 1 from rfl]
    rw [parse_args_loop_step_err (c3Parser ys.length) true
      (2 * (xs ++ ys).length + 3) ((xs ++ ys).length + 2) [] _ _ _ _ true hroot]
    rw [loop_append_nil]
    rw [show (xs ++ ys).length + 2 = 1 + ((xs ++ ys).length + 1) by omega]
    exact c3_loop_succeeds ys.length (c3Parser ys.length)
      (2 * (xs ++ ys).length + 3) hk xs ys [] [] _ 1 rfl (by omega)
  · rw [c3_lookup_last ys.length xs ys,
      if_neg (by intro h; rw [h] at hk; simp at hk)]

/-- **C3** (counterexample to the original claim at k = 0): with the
greedy variadic positional followed by a fixed-arity-0 positional and one
input token, the claim predicts the greedy positional captures the token
and the fixed one captures nothing; the code instead succeeds with the
token captured by the fixed-arity-0 positional (a `Fixed(0)` positional
frame still pops one token) and nothing captured by the greedy one. -/
theorem claimC3_counterexample :
    run_parse (c3Parser 0) true 8 6 ["a"] =
      some (.success ⟨[], [], false, [],
        [(intPos 2 0, ParameterArg.positionalArg "a")], []⟩) ∧
    listLookup (State.get_captured_args
        ⟨[], [], false, [], [(intPos 2 0, ParameterArg.positionalArg "a")], []⟩) 1 =
      none ∧
    listLookup (State.get_captured_args
        ⟨[], [], false, [], [(intPos 2 0, ParameterArg.positionalArg "a")], []⟩) 2 =
      some [ParameterArg.positionalArg "a"] :=
  ⟨rfl, rfl, rfl⟩

/-- Witness for C3 at the concrete input xs = ["a"], ys = ["b"]. -/
theorem claimC3_witness :
    run_parse (c3Parser 1) true (2 * ((["a"] ++ ["b"] : List String)).length + 3)
        (((["a"] ++ ["b"] : List String)).length + 3) (["a"] ++ ["b"]) =
      some (.success ⟨[], [], false, [],
        capP (intPos 2 1) ["b"] (capP (starPos 1) ["a"] []), []⟩) :=
  (claimC3_greedy_reserves_last ["a"] ["b"] (by decide) (by decide)).1
